import Mathlib

/-!
# Embedded heater controller (`src/main.cpp`)

A shallow embedding of the sketch: the four module-level variables become one
record `State`, every function of the sketch that reads or writes them becomes
a function on `State`, and the sensor and the HTTP request are explicit inputs.

Modelling conventions

* A `float` or `double` is a value of `Flt`: not-a-number, an infinity, or a
  finite number given by its exact rational value.  Every arithmetic result is
  rounded to nearest, ties to even, in its format, with gradual underflow and
  overflow to infinity.  The sign of zero is not kept: nothing in the sketch
  tells the two zeros apart.
* `String::toFloat` is the C library `atof` followed by the conversion from
  `double` to `float`.
* `String(float)` is the core's `dtostrf` with width 4 and two decimals, run
  in `double` arithmetic statement by statement, so that the reading `20.125`
  prints as `20.12`.  The capacity of its buffer is not modelled.
* `Decimal`, `Temperature` and `decideHeaterState` follow the words of the
  specification; the claims compare the sketch with them.
* Serial output, Wi-Fi association, the rendered page body and the one minute
  delay do not touch the four variables and are left out.
-/

set_option exponentiation.threshold 2000

namespace EmbeddedController

/-! ## Binary floating point -/

/-- A value of an IEEE binary format: not-a-number, an infinity, or a finite
number given by its exact rational value.  The sign of zero is not kept. -/
inductive Flt where
  | nan
  | inf (negative : Bool)
  | fin (q : ℚ)

instance : DecidableEq Flt
  | Flt.nan, Flt.nan => isTrue rfl
  | Flt.nan, Flt.inf _ => isFalse Flt.noConfusion
  | Flt.nan, Flt.fin _ => isFalse Flt.noConfusion
  | Flt.inf _, Flt.nan => isFalse Flt.noConfusion
  | Flt.inf a, Flt.inf b =>
    decidable_of_iff (a = b) ⟨fun h => congrArg Flt.inf h, fun h => Flt.inf.inj h⟩
  | Flt.inf _, Flt.fin _ => isFalse Flt.noConfusion
  | Flt.fin _, Flt.nan => isFalse Flt.noConfusion
  | Flt.fin _, Flt.inf _ => isFalse Flt.noConfusion
  | Flt.fin x, Flt.fin y =>
    decidable_of_iff (x ≤ y ∧ y ≤ x)
      ⟨fun h => congrArg Flt.fin (le_antisymm h.1 h.2),
        fun h => ⟨le_of_eq (Flt.fin.inj h), le_of_eq (Flt.fin.inj h).symm⟩⟩

/-- An IEEE binary format: precision in bits, exponent of the smallest normal
binade and of the largest binade. -/
structure Format where
  prec : Nat
  emin : Int
  emax : Int

/-- The type `float`. -/
def binary32 : Format := { prec := 24, emin := -126, emax := 127 }

/-- The type `double`. -/
def binary64 : Format := { prec := 53, emin := -1022, emax := 1023 }

/-- Power of two with an integer exponent. -/
def pow2 (k : Int) : ℚ :=
  if 0 ≤ k then ((2 ^ k.toNat : Nat) : ℚ) else 1 / ((2 ^ (-k).toNat : Nat) : ℚ)

/-- First `j`, counting up from the given one, with `n < 2 ^ 2 ^ j`. -/
def log2Bound : Nat → Nat → Nat → Nat
  | 0, j, _ => j
  | fuel + 1, j, n => if n < 2 ^ 2 ^ j then j else log2Bound fuel (j + 1) n

/-- Bisection for the binary logarithm: from `2 ^ k ≤ n < 2 ^ (k + 2 ^ i)` to
the `r` with `2 ^ r ≤ n < 2 ^ (r + 1)`. -/
def log2Search : Nat → Nat → Nat → Nat
  | 0, k, _ => k
  | i + 1, k, n => if 2 ^ (k + 2 ^ i) ≤ n then log2Search i (k + 2 ^ i) n else log2Search i k n

/-- Floor of the binary logarithm of a positive natural number. -/
def natLog2 (n : Nat) : Nat := log2Search (log2Bound n 0 n) 0 n

/-- Floor of the binary logarithm of a positive rational. -/
def ilog2 (q : ℚ) : Int :=
  let k : Int := (natLog2 q.num.natAbs : Int) - (natLog2 q.den : Int)
  if pow2 k ≤ q then k else k - 1

/-- Nearest natural number to a non-negative rational, ties to even. -/
def roundHalfEven (x : ℚ) : Nat :=
  let f := Int.toNat (Rat.floor x)
  let r := x - f
  if r < 1 / 2 then f else if 1 / 2 < r then f + 1 else if f % 2 = 0 then f else f + 1

/-- Unit in the last place of the binade of a positive rational. -/
def ulp (fmt : Format) (x : ℚ) : ℚ := pow2 (max (ilog2 x) fmt.emin - (fmt.prec - 1 : Int))

/-- Round to nearest, ties to even, of a non-negative magnitude, before the
range check. -/
def roundMag (fmt : Format) (x : ℚ) : ℚ :=
  if x = 0 then 0 else roundHalfEven (x / ulp fmt x) * ulp fmt x

/-- Round to nearest, ties to even, into the format; magnitudes that round
past the largest binade become infinite. -/
def Format.round (fmt : Format) (q : ℚ) : Flt :=
  let m := roundMag fmt (if q < 0 then -q else q)
  if pow2 (fmt.emax + 1) ≤ m then Flt.inf (decide (q < 0))
  else Flt.fin (if q < 0 then -m else m)

/-- Conversion of a value into a format. -/
def Format.convert (fmt : Format) : Flt → Flt
  | Flt.fin q => fmt.round q
  | x => x

/-- Comparison `<`: false as soon as one side is not a number. -/
def Flt.lt : Flt → Flt → Bool
  | Flt.fin a, Flt.fin b => decide (a < b)
  | Flt.fin _, Flt.inf negative => !negative
  | Flt.inf negative, Flt.fin _ => negative
  | Flt.inf a, Flt.inf b => a && !b
  | _, _ => false

/-- Comparison `>=`: false as soon as one side is not a number. -/
def Flt.ge : Flt → Flt → Bool
  | Flt.fin a, Flt.fin b => decide (b ≤ a)
  | Flt.fin _, Flt.inf negative => negative
  | Flt.inf negative, Flt.fin _ => !negative
  | Flt.inf a, Flt.inf b => !a || b
  | _, _ => false

/-- Negation. -/
def Flt.neg : Flt → Flt
  | Flt.nan => Flt.nan
  | Flt.inf negative => Flt.inf (!negative)
  | Flt.fin q => Flt.fin (-q)

/-- Addition in `double`. -/
def Flt.add : Flt → Flt → Flt
  | Flt.fin a, Flt.fin b => binary64.round (a + b)
  | Flt.fin _, Flt.inf negative => Flt.inf negative
  | Flt.inf negative, Flt.fin _ => Flt.inf negative
  | Flt.inf a, Flt.inf b => if a = b then Flt.inf a else Flt.nan
  | _, _ => Flt.nan

/-- Subtraction in `double`. -/
def Flt.sub (a b : Flt) : Flt := Flt.add a (Flt.neg b)

/-- Multiplication in `double`. -/
def Flt.mul : Flt → Flt → Flt
  | Flt.fin a, Flt.fin b => binary64.round (a * b)
  | Flt.fin a, Flt.inf negative => if a = 0 then Flt.nan else Flt.inf (negative != decide (a < 0))
  | Flt.inf negative, Flt.fin b => if b = 0 then Flt.nan else Flt.inf (negative != decide (b < 0))
  | Flt.inf a, Flt.inf b => Flt.inf (a != b)
  | _, _ => Flt.nan

/-- Division in `double`; a zero divisor counts as positive zero. -/
def Flt.div : Flt → Flt → Flt
  | Flt.fin a, Flt.fin b =>
    if b = 0 then (if a = 0 then Flt.nan else Flt.inf (decide (a < 0))) else binary64.round (a / b)
  | Flt.fin _, Flt.inf _ => Flt.fin 0
  | Flt.inf negative, Flt.fin b => Flt.inf (negative != decide (b < 0))
  | _, _ => Flt.nan

instance : OfNat Flt n := ⟨Flt.fin n⟩

instance : Neg Flt := ⟨Flt.neg⟩

instance : LT Flt := ⟨fun a b => Flt.lt a b = true⟩

instance (a b : Flt) : Decidable (a < b) := inferInstanceAs (Decidable (Flt.lt a b = true))

/-! ## `dtostrf` and `String(float)` -/

/-- Conversion of a `double` to `int8_t`: the integer part.  Where `dtostrf`
converts, the number is never negative and never far above ten. -/
def Flt.toInt8 : Flt → Nat
  | Flt.fin q => Int.toNat (Rat.floor q)
  | _ => 0

/-- The loop `for (i = 0; i < prec; ++i) rounding *= 10.0;`. -/
def roundingLoop : Nat → Flt → Flt
  | 0, rounding => rounding
  | prec + 1, rounding => roundingLoop prec (Flt.mul rounding 10)

/-- The loop `while (number >= 10.0 * tenpow) (tenpow *= 10.0; digitcount++)`.
The first argument bounds the number of passes; `dtostrf` allows 400, and for
a `float` the loop ends by its own test within 40 (`dtostrf_loop_stops`). -/
def tenpowLoop : Nat → Flt → Flt → Nat → Flt × Nat
  | 0, _, tenpow, digitcount => (tenpow, digitcount)
  | fuel + 1, number, tenpow, digitcount =>
    if Flt.ge number (Flt.mul 10 tenpow) then
      tenpowLoop fuel number (Flt.mul tenpow 10) (digitcount + 1)
    else (tenpow, digitcount)

/-- The loop `while (digitcount-- > 0)` that writes the digits and the point. -/
def digitLoop (prec : Nat) : Nat → Flt → List Char
  | 0, _ => []
  | digitcount + 1, number =>
    let digit := min (Flt.toInt8 number) 9
    let rest := digitLoop prec digitcount (Flt.mul (Flt.sub number (Flt.fin digit)) 10)
    if digitcount = prec ∧ 0 < prec then Char.ofNat (48 ||| digit) :: '.' :: rest
    else Char.ofNat (48 ||| digit) :: rest

/-- The core's `dtostrf(number, width, prec, s)`: the characters written. -/
def dtostrf (number : Flt) (width : Int) (prec : Nat) : List Char :=
  match number with
  | Flt.nan => ['n', 'a', 'n']
  | Flt.inf _ => ['i', 'n', 'f']
  | Flt.fin q =>
    let negative := decide (q < 0)
    let fillme : Int := (if 0 < prec then width - (prec + 1) else width) - (if negative then 1 else 0)
    let number := Flt.add (if negative then Flt.neg (Flt.fin q) else Flt.fin q)
      (Flt.div 1 (roundingLoop prec 2))
    let td := tenpowLoop 400 number 1 1
    List.replicate (Int.toNat (fillme - td.2)) ' ' ++ (if negative then ['-'] else []) ++
      digitLoop prec (td.2 + prec) (Flt.div number td.1)

/-- Arduino `String(float value, unsigned char decimalPlaces = 2)`. -/
def stringOfFloat (value : Flt) : String :=
  String.mk (dtostrf (binary64.convert value) (2 + 2) 2)

/-! ## Text to number: `String::toFloat` -/

/-- White space skipped by `atof` before the numeral. -/
def isspace (c : Char) : Bool := c.toNat = 32 || (9 ≤ c.toNat && c.toNat ≤ 13)

/-- Decimal digit characters `0` to `9`. -/
def isdigit (c : Char) : Bool := 48 ≤ c.toNat && c.toNat ≤ 57

/-- Numeric value of a digit character. -/
def digitVal (c : Char) : Nat := c.toNat - 48

/-- Lower-case form of an ASCII letter. -/
def tolower (c : Char) : Char :=
  if 65 ≤ c.toNat ∧ c.toNat ≤ 90 then Char.ofNat (c.toNat + 32) else c

/-- Whether the text begins with the given lower-case word, letter case ignored. -/
def matchWord : List Char → List Char → Bool
  | [], _ => true
  | _ :: _, [] => false
  | w :: ws, c :: cs => tolower c = w && matchWord ws cs

/-- Value of a hexadecimal digit character, if it is one. -/
def hexVal (c : Char) : Option Nat :=
  if 48 ≤ c.toNat ∧ c.toNat ≤ 57 then some (c.toNat - 48)
  else if 97 ≤ c.toNat ∧ c.toNat ≤ 102 then some (c.toNat - 87)
  else if 65 ≤ c.toNat ∧ c.toNat ≤ 70 then some (c.toNat - 55)
  else none

/-- Power of ten with an integer exponent. -/
def pow10 (k : Int) : ℚ :=
  if 0 ≤ k then ((10 ^ k.toNat : Nat) : ℚ) else 1 / ((10 ^ (-k).toNat : Nat) : ℚ)

/-- Longest run of digits at the head of the text: the number read so far, how
many digits were read, and the unread rest. -/
def readDigits : List Char → Nat → Nat → Nat × Nat × List Char
  | [], acc, n => (acc, n, [])
  | c :: cs, acc, n =>
    if isdigit c then readDigits cs (acc * 10 + digitVal c) (n + 1) else (acc, n, c :: cs)

/-- Longest run of hexadecimal digits at the head of the text. -/
def readHexDigits : List Char → Nat → Nat → Nat × Nat × List Char
  | [], acc, n => (acc, n, [])
  | c :: cs, acc, n =>
    match hexVal c with
    | some v => readHexDigits cs (acc * 16 + v) (n + 1)
    | none => (acc, n, c :: cs)

/-- Optional sign: `true` for a leading minus. -/
def readSign : List Char → Bool × List Char
  | [] => (false, [])
  | c :: cs => if c = '-' then (true, cs) else if c = '+' then (false, cs) else (false, c :: cs)

/-- Optional fraction: a point followed by digits. -/
def readFraction : List Char → Nat × Nat × List Char
  | [] => (0, 0, [])
  | c :: cs => if c = '.' then readDigits cs 0 0 else (0, 0, c :: cs)

/-- Optional hexadecimal fraction: a point followed by hexadecimal digits. -/
def readHexFraction : List Char → Nat × Nat × List Char
  | [] => (0, 0, [])
  | c :: cs => if c = '.' then readHexDigits cs 0 0 else (0, 0, c :: cs)

/-- Optional exponent: one of the two marker letters, an optional sign and at
least one digit; anything else contributes a zero exponent. -/
def readExponent (lower upper : Char) : List Char → Int
  | [] => 0
  | c :: cs =>
    if c = lower ∨ c = upper then
      let sg := readSign cs
      let d := readDigits sg.2 0 0
      if d.2.1 = 0 then 0 else if sg.1 then -(d.1 : Int) else (d.1 : Int)
    else 0

/-- Magnitude of a leading hexadecimal numeral `0x...`, if the text has one. -/
def hexNumeral : List Char → Option ℚ
  | c0 :: c1 :: cs =>
    if c0 = '0' ∧ (c1 = 'x' ∨ c1 = 'X') then
      let ip := readHexDigits cs 0 0
      let fp := readHexFraction ip.2.2
      if ip.2.1 + fp.2.1 = 0 then none
      else some (((ip.1 : ℚ) + (fp.1 : ℚ) / ((16 ^ fp.2.1 : Nat) : ℚ)) *
        pow2 (readExponent 'p' 'P' fp.2.2))
    else none
  | _ => none

/-- Magnitude of the longest leading decimal numeral, `0` when there is none. -/
def decimalNumeral (cs : List Char) : ℚ :=
  let ip := readDigits cs 0 0
  let fp := readFraction ip.2.2
  if ip.2.1 + fp.2.1 = 0 then 0
  else ((ip.1 : ℚ) + (fp.1 : ℚ) / ((10 ^ fp.2.1 : Nat) : ℚ)) * pow10 (readExponent 'e' 'E' fp.2.2)

/-- The C library `atof`: white space, an optional sign, then `inf`, `nan`, a
hexadecimal numeral or the longest decimal numeral, correctly rounded to
`double`; `0` when no number can be read. -/
def atof (cs : List Char) : Flt :=
  let sg := readSign (cs.dropWhile isspace)
  if matchWord ['i', 'n', 'f'] sg.2 then Flt.inf sg.1
  else if matchWord ['n', 'a', 'n'] sg.2 then Flt.nan
  else
    let m : ℚ := match hexNumeral sg.2 with
      | some v => v
      | none => decimalNumeral sg.2
    binary64.round (if sg.1 then -m else m)

/-- Arduino `String::toFloat()`: `atof`, converted to `float`. -/
def toFloat (s : String) : Flt := binary32.convert (atof s.data)

/-! ## The sketch -/

/-- The module-level variables of the sketch. -/
structure State where
  temperatureC : String
  ComfortTemperatureC : String
  ConserveTemperatureC : String
  heaterState : Bool
  deriving DecidableEq

/-- Values of the variables given by their initialisers. -/
def initialState : State :=
  { temperatureC := "", ComfortTemperatureC := "22", ConserveTemperatureC := "16",
    heaterState := false }

/-- Name of the comfort query parameter. -/
def ComfortParameter : String := "comfort_input"

/-- Name of the conserve query parameter. -/
def ConserveParameter : String := "conserve_input"

/-- One query parameter of a request. -/
structure AsyncWebParameter where
  name : String
  value : String
  deriving DecidableEq

/-- A GET request, reduced to its query parameters in the order received. -/
structure AsyncWebServerRequest where
  params : List AsyncWebParameter
  deriving DecidableEq

/-- Whether the request has a parameter of that name. -/
def AsyncWebServerRequest.hasParam (request : AsyncWebServerRequest) (name : String) : Bool :=
  request.params.any (fun p => p.name == name)

/-- First parameter of that name, if any. -/
def AsyncWebServerRequest.getParam (request : AsyncWebServerRequest) (name : String) :
    Option AsyncWebParameter :=
  request.params.find? (fun p => p.name == name)

/-- Placeholder substitution of the page template. -/
def processor (s : State) (var : String) : String :=
  if var = "TEMPERATUREC" then s.temperatureC
  else if var = "COMFORT" then s.ComfortTemperatureC
  else if var = "CONSERVE" then s.ConserveTemperatureC
  else if var = "HEATER_STATE" then (if s.heaterState then "ON" else "OFF")
  else ""

/-- Sensor read: `tempC` is what `sensors.getTempCByIndex(0)` returned. -/
def readDSTemperatureC (tempC : Flt) : String :=
  if tempC = -127 then "--" else stringOfFloat tempC

/-- Heater decision from the stored temperature and comfort texts. -/
def controlHeater (s : State) : State :=
  let currentTemp := toFloat s.temperatureC
  let comfortTemp := toFloat s.ComfortTemperatureC
  if currentTemp < comfortTemp then { s with heaterState := true }
  else { s with heaterState := false }

/-- The part of `setup()` that touches the variables: the initial sensor read. -/
def setup (s : State) (tempC : Flt) : State :=
  { s with temperatureC := readDSTemperatureC tempC }

/-- The two conditional assignments at the head of the `/desiredc` handler. -/
def desiredcAssign (s : State) (request : AsyncWebServerRequest) : State :=
  let s1 :=
    if request.hasParam ComfortParameter then
      match request.getParam ComfortParameter with
      | some p => { s with ComfortTemperatureC := p.value }
      | none => s
    else s
  if request.hasParam ConserveParameter then
    match request.getParam ConserveParameter with
    | some p => { s1 with ConserveTemperatureC := p.value }
    | none => s1
  else s1

/-- The `/desiredc` handler: assignments, then `controlHeater()`. -/
def desiredcHandler (s : State) (request : AsyncWebServerRequest) : State :=
  controlHeater (desiredcAssign s request)

/-- The `/temperaturec` handler: the body of the response. -/
def temperaturecHandler (s : State) : String := s.temperatureC

/-- First statement of `loop()`: the sensor read stored in `temperatureC`. -/
def loopAssign (s : State) (tempC : Flt) : State :=
  { s with temperatureC := readDSTemperatureC tempC }

/-- One pass of `loop()`: sensor read, then `controlHeater()`. -/
def loop (s : State) (tempC : Flt) : State :=
  controlHeater (loopAssign s tempC)

/-! ## One pass of `loop()` and one reader -/

/-- Temperature of the specification: a decimal value or the unreadable mark. -/
inductive Temperature where
  | unreadable
  | reading (t : ℚ)

/-- The control algorithm as the specification words it: heating exactly when
the temperature is readable and strictly below the comfort setpoint. -/
def decideHeaterState : Temperature → ℚ → Bool
  | Temperature.unreadable, _ => false
  | Temperature.reading t, c => decide (t < c)

/-- Character of one decimal digit. -/
def digitChar (d : Fin 10) : Char := Char.ofNat (48 + d.val)

/-- Number written by a digit string, most significant digit first. -/
def digitsValue (ds : List (Fin 10)) : Nat := ds.foldl (fun a d => a * 10 + d.val) 0

/-- Sign written in front of a numeral or of its exponent, if any. -/
inductive Sign where
  | absent
  | plus
  | minus
  deriving DecidableEq

/-- Characters of a sign. -/
def Sign.chars : Sign → List Char
  | Sign.absent => []
  | Sign.plus => ['+']
  | Sign.minus => ['-']

/-- Whether the sign is a minus. -/
def Sign.negative : Sign → Bool
  | Sign.minus => true
  | _ => false

/-- Digits of a decimal numeral: one or more integer digits, optionally
followed by a point and fraction digits, or a point followed by one or more
fraction digits. -/
inductive Mantissa where
  | whole (lead : Fin 10) (rest : List (Fin 10)) (point : Bool) (frac : List (Fin 10))
  | fraction (lead : Fin 10) (rest : List (Fin 10))
  deriving DecidableEq

/-- Digits before the point. -/
def Mantissa.intDigits : Mantissa → List (Fin 10)
  | Mantissa.whole lead rest _ _ => lead :: rest
  | Mantissa.fraction _ _ => []

/-- Digits after the point. -/
def Mantissa.fracDigits : Mantissa → List (Fin 10)
  | Mantissa.whole _ _ _ frac => frac
  | Mantissa.fraction lead rest => lead :: rest

/-- Characters of the digits of a numeral. -/
def Mantissa.chars : Mantissa → List Char
  | Mantissa.whole lead rest point frac =>
    (lead :: rest).map digitChar ++
      (if point = true ∨ frac ≠ [] then '.' :: frac.map digitChar else [])
  | Mantissa.fraction lead rest => '.' :: (lead :: rest).map digitChar

/-- Exponent part of a decimal numeral: the letter `e` in either case, an
optional sign and one or more digits. -/
structure ExponentPart where
  upper : Bool
  sign : Sign
  lead : Fin 10
  rest : List (Fin 10)
  deriving DecidableEq

/-- Characters of an exponent part. -/
def ExponentPart.chars (e : ExponentPart) : List Char :=
  (if e.upper then 'E' else 'e') :: (e.sign.chars ++ (e.lead :: e.rest).map digitChar)

/-- Power of ten an exponent part denotes. -/
def ExponentPart.value (e : ExponentPart) : Int :=
  if e.sign.negative then -(digitsValue (e.lead :: e.rest) : Int)
  else (digitsValue (e.lead :: e.rest) : Int)

/-- A decimal numeral: optional sign, digits with an optional point, and an
optional exponent part. -/
structure Decimal where
  sign : Sign
  mantissa : Mantissa
  exponent : Option ExponentPart
  deriving DecidableEq

/-- Power of ten of the exponent part, `0` without one. -/
def Decimal.scale (d : Decimal) : Int :=
  match d.exponent with
  | none => 0
  | some e => e.value

/-- Value denoted by a decimal numeral. -/
def Decimal.value (d : Decimal) : ℚ :=
  let m : ℚ := ((digitsValue d.mantissa.intDigits : ℚ) +
    (digitsValue d.mantissa.fracDigits : ℚ) / ((10 ^ d.mantissa.fracDigits.length : Nat) : ℚ)) *
      pow10 d.scale
  if d.sign.negative then -m else m

/-- Characters of a decimal numeral. -/
def Decimal.chars (d : Decimal) : List Char :=
  d.sign.chars ++ (d.mantissa.chars ++
    (match d.exponent with
      | none => []
      | some e => e.chars))

/-- Text of a decimal numeral. -/
def Decimal.render (d : Decimal) : String := String.mk d.chars

/-- The plain numerals: optional minus sign, integer digits, and a point only
in front of fraction digits. -/
def Decimal.plain (negative : Bool) (lead : Fin 10) (rest frac : List (Fin 10)) : Decimal :=
  { sign := if negative then Sign.minus else Sign.absent,
    mantissa := Mantissa.whole lead rest false frac,
    exponent := none }

/-! ## Auxiliary notions -/

/-- The value a `float` variable receives from a number first rounded to
`double`. -/
def toFloat32 (q : ℚ) : Flt := binary32.convert (binary64.round q)

/-- The variable `tenpow` after `k` more passes through the body of the loop
`while (number >= 10.0 * tenpow)`. -/
def tenpowAfter : Nat → Flt → Flt
  | 0, tenpow => tenpow
  | k + 1, tenpow => tenpowAfter k (Flt.mul tenpow 10)

/-- The head of the text is not a digit. -/
def stopsDigits : List Char → Prop
  | [] => True
  | c :: _ => isdigit c = false

/-- The head of the text cannot continue a decimal numeral. -/
def stopsNumeral : List Char → Prop
  | [] => True
  | c :: _ => isdigit c = false ∧ c ≠ '.' ∧ c ≠ 'e' ∧ c ≠ 'E' ∧ c ≠ 'x' ∧ c ≠ 'X'

/-- What may follow the digits of a numeral: an exponent part or text that
cannot continue the numeral. -/
def followsDigits (more : List Char) : Prop :=
  stopsDigits more ∧ (∀ c cs, more = c :: cs → c ≠ '.' ∧ c ≠ 'x' ∧ c ≠ 'X')

/-- The head of the text cannot begin a number: no white space, sign, digit,
point, or first letter of `inf` or `nan`. -/
def startsNoNumber : List Char → Prop
  | [] => True
  | c :: _ => isspace c = false ∧ c ≠ '-' ∧ c ≠ '+' ∧ isdigit c = false ∧ c ≠ '.' ∧
      tolower c ≠ 'i' ∧ tolower c ≠ 'n'

/-- The stored heater state is the one `controlHeater()` computes from the
stored temperature and comfort texts. -/
def heaterCurrent (s : State) : Prop := controlHeater s = s

instance (s : State) : Decidable (heaterCurrent s) :=
  inferInstanceAs (Decidable (controlHeater s = s))

/-! ## Rounding is monotone -/

theorem pow2_eq_zpow (k : Int) : pow2 k = (2 : ℚ) ^ k := by
  unfold pow2
  split_ifs with h
  · obtain ⟨n, rfl⟩ := Int.eq_ofNat_of_zero_le h
    simp
  · have hk : 0 ≤ -k := by omega
    obtain ⟨n, hn⟩ := Int.eq_ofNat_of_zero_le hk
    have hk' : k = -(n : Int) := by omega
    subst hk'
    simp

theorem pow2_pos (k : Int) : 0 < pow2 k := by
  rw [pow2_eq_zpow]
  positivity

theorem log2Bound_spec (fuel : Nat) : ∀ j n : Nat, n ≤ j + fuel →
    n < 2 ^ 2 ^ log2Bound fuel j n := by
  induction fuel with
  | zero =>
    intro j n h
    simp only [log2Bound]
    calc n ≤ j := by omega
      _ < 2 ^ j := Nat.lt_two_pow j
      _ < 2 ^ 2 ^ j := Nat.lt_two_pow _
  | succ fuel ih =>
    intro j n h
    simp only [log2Bound]
    split_ifs with hlt
    · exact hlt
    · exact ih (j + 1) n (by omega)

theorem log2Search_spec (i : Nat) : ∀ k n : Nat, 2 ^ k ≤ n → n < 2 ^ (k + 2 ^ i) →
    2 ^ log2Search i k n ≤ n ∧ n < 2 ^ (log2Search i k n + 1) := by
  induction i with
  | zero =>
    intro k n h1 h2
    simpa [log2Search] using And.intro h1 h2
  | succ i ih =>
    intro k n h1 h2
    simp only [log2Search]
    split_ifs with hle
    · refine ih (k + 2 ^ i) n hle ?_
      have : k + 2 ^ i + 2 ^ i = k + 2 ^ (i + 1) := by ring
      rwa [this]
    · exact ih k n h1 (by omega)

theorem natLog2_spec (n : Nat) (hn : 1 ≤ n) :
    2 ^ natLog2 n ≤ n ∧ n < 2 ^ (natLog2 n + 1) := by
  refine log2Search_spec _ 0 n (by simpa using hn) ?_
  simpa using log2Bound_spec n 0 n (by omega)

theorem ilog2_spec (q : ℚ) (hq : 0 < q) :
    (2 : ℚ) ^ ilog2 q ≤ q ∧ q < (2 : ℚ) ^ (ilog2 q + 1) := by
  have hnum : 0 < q.num := Rat.num_pos.mpr hq
  have ha : 1 ≤ q.num.natAbs := by omega
  have hb : 1 ≤ q.den := q.den_pos
  obtain ⟨a1, a2⟩ := natLog2_spec _ ha
  obtain ⟨b1, b2⟩ := natLog2_spec _ hb
  have hqa : q = (q.num.natAbs : ℚ) / (q.den : ℚ) := by
    have h2 : ((q.num.natAbs : ℕ) : ℚ) = (q.num : ℚ) := by
      rw [Nat.cast_natAbs, abs_of_pos hnum]
    rw [h2]
    exact (Rat.num_div_den q).symm
  have hbpos : (0 : ℚ) < (q.den : ℚ) := by exact_mod_cast hb
  have A1 : (2 : ℚ) ^ (natLog2 q.num.natAbs : Int) ≤ (q.num.natAbs : ℚ) := by
    rw [zpow_natCast]; exact_mod_cast a1
  have A2 : (q.num.natAbs : ℚ) < (2 : ℚ) ^ ((natLog2 q.num.natAbs : Int) + 1) := by
    have : ((natLog2 q.num.natAbs : Int) + 1) = ((natLog2 q.num.natAbs + 1 : ℕ) : Int) := by simp
    rw [this, zpow_natCast]; exact_mod_cast a2
  have B1 : (2 : ℚ) ^ (natLog2 q.den : Int) ≤ (q.den : ℚ) := by
    rw [zpow_natCast]; exact_mod_cast b1
  have B2 : (q.den : ℚ) < (2 : ℚ) ^ ((natLog2 q.den : Int) + 1) := by
    have : ((natLog2 q.den : Int) + 1) = ((natLog2 q.den + 1 : ℕ) : Int) := by simp
    rw [this, zpow_natCast]; exact_mod_cast b2
  have two : (2 : ℚ) ≠ 0 := by norm_num
  set la : Int := (natLog2 q.num.natAbs : Int) with hla
  set lb : Int := (natLog2 q.den : Int) with hlb
  have hupper : q < (2 : ℚ) ^ (la - lb + 1) := by
    have e : (2 : ℚ) ^ (la - lb + 1) = (2 : ℚ) ^ (la + 1) / (2 : ℚ) ^ lb := by
      rw [← zpow_sub₀ two]; congr 1; ring
    rw [e, hqa, div_lt_div_iff₀ hbpos (by positivity)]
    calc (q.num.natAbs : ℚ) * (2 : ℚ) ^ lb ≤ (q.num.natAbs : ℚ) * (q.den : ℚ) := by
          apply mul_le_mul_of_nonneg_left B1; positivity
      _ < (2 : ℚ) ^ (la + 1) * (q.den : ℚ) := by
          apply mul_lt_mul_of_pos_right A2 hbpos
  have hlower : (2 : ℚ) ^ (la - lb - 1) ≤ q := by
    have e : (2 : ℚ) ^ (la - lb - 1) = (2 : ℚ) ^ la / (2 : ℚ) ^ (lb + 1) := by
      rw [← zpow_sub₀ two]; congr 1; ring
    rw [e, hqa, div_le_div_iff₀ (by positivity) hbpos]
    calc (2 : ℚ) ^ la * (q.den : ℚ) ≤ (q.num.natAbs : ℚ) * (q.den : ℚ) := by
          apply mul_le_mul_of_nonneg_right A1 hbpos.le
      _ ≤ (q.num.natAbs : ℚ) * (2 : ℚ) ^ (lb + 1) := by
          apply mul_le_mul_of_nonneg_left B2.le; positivity
  unfold ilog2
  simp only [← hla, ← hlb, pow2_eq_zpow]
  split_ifs with hk
  · exact ⟨hk, hupper⟩
  · refine ⟨hlower, ?_⟩
    have : la - lb - 1 + 1 = la - lb := by ring
    rw [this]
    exact not_le.mp hk

theorem ilog2_mono (x y : ℚ) (hx : 0 < x) (hxy : x ≤ y) : ilog2 x ≤ ilog2 y := by
  obtain ⟨x1, _⟩ := ilog2_spec x hx
  obtain ⟨_, y2⟩ := ilog2_spec y (lt_of_lt_of_le hx hxy)
  have h : (2 : ℚ) ^ ilog2 x < (2 : ℚ) ^ (ilog2 y + 1) := lt_of_le_of_lt (x1.trans hxy) y2
  have := (zpow_lt_zpow_iff_right₀ (by norm_num : (1 : ℚ) < 2)).mp h
  omega

theorem floorNat_eq (x : ℚ) : Int.toNat (Rat.floor x) = ⌊x⌋₊ := rfl

theorem roundHalfEven_bounds (x : ℚ) :
    ⌊x⌋₊ ≤ roundHalfEven x ∧ roundHalfEven x ≤ ⌊x⌋₊ + 1 := by
  unfold roundHalfEven
  simp only [floorNat_eq]
  split_ifs <;> omega

theorem roundHalfEven_natCast (n : Nat) : roundHalfEven (n : ℚ) = n := by
  unfold roundHalfEven
  simp only [floorNat_eq, Nat.floor_natCast]
  norm_num

theorem roundHalfEven_mono (x y : ℚ) (hxy : x ≤ y) :
    roundHalfEven x ≤ roundHalfEven y := by
  have hf : ⌊x⌋₊ ≤ ⌊y⌋₊ := Nat.floor_mono hxy
  rcases Nat.lt_or_ge ⌊x⌋₊ ⌊y⌋₊ with hlt | hge
  · have h1 := (roundHalfEven_bounds x).2
    have h2 := (roundHalfEven_bounds y).1
    omega
  · have heq : ⌊y⌋₊ = ⌊x⌋₊ := by omega
    unfold roundHalfEven
    simp only [floorNat_eq, heq]
    split_ifs <;> first | omega | (exfalso; linarith)

theorem roundHalfEven_near (x : ℚ) (hx : 0 ≤ x) :
    (roundHalfEven x : ℚ) ≤ x + 1 / 2 ∧ x - 1 / 2 ≤ (roundHalfEven x : ℚ) := by
  have h1 : (⌊x⌋₊ : ℚ) ≤ x := Nat.floor_le hx
  have h2 : x < (⌊x⌋₊ : ℚ) + 1 := Nat.lt_floor_add_one x
  unfold roundHalfEven
  simp only [floorNat_eq]
  split_ifs <;> push_cast <;> constructor <;> linarith

theorem ulp_pos (fmt : Format) (x : ℚ) : 0 < ulp fmt x := pow2_pos _

theorem roundMag_nonneg (fmt : Format) (x : ℚ) : 0 ≤ roundMag fmt x := by
  unfold roundMag
  split_ifs
  · exact le_refl 0
  · exact mul_nonneg (Nat.cast_nonneg _) (ulp_pos fmt x).le

/-- Within the binade of `x` the rounded magnitude stays between the ends of
the binade. -/
theorem roundMag_binade (fmt : Format) (hp : 1 ≤ fmt.prec) (x : ℚ) (hx : 0 < x) :
    roundMag fmt x ≤ (2 : ℚ) ^ (max (ilog2 x) fmt.emin + 1) ∧
      (fmt.emin ≤ ilog2 x → (2 : ℚ) ^ ilog2 x ≤ roundMag fmt x) := by
  obtain ⟨s1, s2⟩ := ilog2_spec x hx
  have two : (2 : ℚ) ≠ 0 := by norm_num
  have hu : ulp fmt x = (2 : ℚ) ^ (max (ilog2 x) fmt.emin - (fmt.prec - 1 : Int)) := by
    unfold ulp; rw [pow2_eq_zpow]
  have hupos := ulp_pos fmt x
  have hne : x ≠ 0 := ne_of_gt hx
  have hR : roundMag fmt x = roundHalfEven (x / ulp fmt x) * ulp fmt x := by
    unfold roundMag; rw [if_neg hne]
  have hpcast : ((fmt.prec - 1 : ℕ) : Int) = (fmt.prec : Int) - 1 := by omega
  constructor
  · -- upper end
    have hxle : x ≤ (2 : ℚ) ^ (max (ilog2 x) fmt.emin + 1) := by
      refine s2.le.trans ?_
      exact zpow_le_zpow_right₀ (by norm_num) (by omega)
    have hq : x / ulp fmt x ≤ ((2 ^ fmt.prec : ℕ) : ℚ) := by
      rw [div_le_iff₀ hupos, hu]
      have : ((2 ^ fmt.prec : ℕ) : ℚ) = (2 : ℚ) ^ (fmt.prec : Int) := by
        rw [zpow_natCast]; norm_cast
      rw [this, ← zpow_add₀ two]
      have e : (fmt.prec : Int) + (max (ilog2 x) fmt.emin - (fmt.prec - 1 : Int)) =
          max (ilog2 x) fmt.emin + 1 := by ring
      rw [e]; exact hxle
    have hr := roundHalfEven_mono _ _ hq
    rw [roundHalfEven_natCast] at hr
    rw [hR]
    calc (roundHalfEven (x / ulp fmt x) : ℚ) * ulp fmt x
        ≤ ((2 ^ fmt.prec : ℕ) : ℚ) * ulp fmt x := by
          apply mul_le_mul_of_nonneg_right _ hupos.le
          exact_mod_cast hr
      _ = (2 : ℚ) ^ (max (ilog2 x) fmt.emin + 1) := by
          have : ((2 ^ fmt.prec : ℕ) : ℚ) = (2 : ℚ) ^ (fmt.prec : Int) := by
            rw [zpow_natCast]; norm_cast
          rw [this, hu, ← zpow_add₀ two]
          congr 1; ring
  · intro hemin
    have hmax : max (ilog2 x) fmt.emin = ilog2 x := max_eq_left hemin
    rw [hmax] at hu
    have hq : ((2 ^ (fmt.prec - 1) : ℕ) : ℚ) ≤ x / ulp fmt x := by
      rw [le_div_iff₀ hupos, hu]
      have : ((2 ^ (fmt.prec - 1) : ℕ) : ℚ) = (2 : ℚ) ^ ((fmt.prec : Int) - 1) := by
        rw [← hpcast, zpow_natCast]; norm_cast
      rw [this, ← zpow_add₀ two]
      have e : (fmt.prec : Int) - 1 + (ilog2 x - (fmt.prec - 1 : Int)) = ilog2 x := by ring
      rw [e]; exact s1
    have hr := roundHalfEven_mono _ _ hq
    rw [roundHalfEven_natCast] at hr
    rw [hR]
    calc (2 : ℚ) ^ ilog2 x = ((2 ^ (fmt.prec - 1) : ℕ) : ℚ) * ulp fmt x := by
          have : ((2 ^ (fmt.prec - 1) : ℕ) : ℚ) = (2 : ℚ) ^ ((fmt.prec : Int) - 1) := by
            rw [← hpcast, zpow_natCast]; norm_cast
          rw [this, hu, ← zpow_add₀ two]
          congr 1; ring
      _ ≤ (roundHalfEven (x / ulp fmt x) : ℚ) * ulp fmt x := by
          apply mul_le_mul_of_nonneg_right _ hupos.le
          exact_mod_cast hr

theorem roundMag_mono (fmt : Format) (hp : 1 ≤ fmt.prec) (x y : ℚ) (hx : 0 ≤ x) (hxy : x ≤ y) :
    roundMag fmt x ≤ roundMag fmt y := by
  rcases eq_or_lt_of_le hx with h0 | hpos
  · have : roundMag fmt x = 0 := by unfold roundMag; rw [if_pos h0.symm]
    rw [this]; exact roundMag_nonneg fmt y
  have hypos : 0 < y := lt_of_lt_of_le hpos hxy
  have hlog := ilog2_mono x y hpos hxy
  have hmax : max (ilog2 x) fmt.emin ≤ max (ilog2 y) fmt.emin := max_le_max hlog (le_refl _)
  rcases eq_or_lt_of_le hmax with heq | hlt
  · have hu : ulp fmt x = ulp fmt y := by unfold ulp; rw [heq]
    have hupos := ulp_pos fmt y
    unfold roundMag
    rw [if_neg (ne_of_gt hpos), if_neg (ne_of_gt hypos), hu]
    apply mul_le_mul_of_nonneg_right _ hupos.le
    have := roundHalfEven_mono (x / ulp fmt y) (y / ulp fmt y)
      (div_le_div_of_nonneg_right hxy hupos.le)
    exact_mod_cast this
  · have hy : fmt.emin ≤ ilog2 y := by
      by_contra hcon
      have : max (ilog2 y) fmt.emin = fmt.emin := max_eq_right (by omega)
      rw [this] at hlt
      have := le_max_right (ilog2 x) fmt.emin
      omega
    have hymax : max (ilog2 y) fmt.emin = ilog2 y := max_eq_left hy
    rw [hymax] at hlt
    have h1 := (roundMag_binade fmt hp x hpos).1
    have h2 := (roundMag_binade fmt hp y hypos).2 hy
    have h3 : (2 : ℚ) ^ (max (ilog2 x) fmt.emin + 1) ≤ (2 : ℚ) ^ ilog2 y :=
      zpow_le_zpow_right₀ (by norm_num) (by omega)
    exact h1.trans (h3.trans h2)

theorem round_ne_nan (fmt : Format) (q : ℚ) : fmt.round q ≠ Flt.nan := by
  unfold Format.round
  simp only []
  split_ifs <;> simp

theorem convert_ne_nan (fmt : Format) (a : Flt) (ha : a ≠ Flt.nan) : fmt.convert a ≠ Flt.nan := by
  cases a with
  | nan => exact absurd rfl ha
  | inf b => simp [Format.convert]
  | fin q => exact round_ne_nan fmt q

/-- Rounding into a format never reverses the order of two numbers. -/
theorem round_mono (fmt : Format) (hp : 1 ≤ fmt.prec) (x y : ℚ) (hxy : x ≤ y) :
    Flt.lt (fmt.round y) (fmt.round x) = false := by
  have hmx := roundMag_nonneg fmt (if x < 0 then -x else x)
  have hmy := roundMag_nonneg fmt (if y < 0 then -y else y)
  unfold Format.round
  simp only []
  by_cases hx : x < 0 <;> by_cases hy : y < 0
  · have hm : roundMag fmt (-y) ≤ roundMag fmt (-x) :=
      roundMag_mono fmt hp (-y) (-x) (by linarith) (by linarith)
    simp only [hx, hy, if_true] at hmx hmy ⊢
    split_ifs with h1 h2 h2 <;> simp [Flt.lt] <;> linarith
  · simp only [hx, hy, if_true, if_false] at hmx hmy ⊢
    split_ifs <;> simp [Flt.lt]
    linarith
  · exact absurd (lt_of_le_of_lt hxy hy) hx
  · have hm : roundMag fmt x ≤ roundMag fmt y :=
      roundMag_mono fmt hp x y (not_lt.mp hx) hxy
    simp only [hx, hy, if_false] at hmx hmy ⊢
    split_ifs with h1 h2 h2 <;> simp [Flt.lt] <;> linarith

/-- Conversion into a format never reverses the order of two values. -/
theorem convert_mono (fmt : Format) (hp : 1 ≤ fmt.prec) (a b : Flt)
    (ha : a ≠ Flt.nan) (hb : b ≠ Flt.nan) (hab : Flt.lt b a = false) :
    Flt.lt (fmt.convert b) (fmt.convert a) = false := by
  cases a with
  | nan => exact absurd rfl ha
  | inf na =>
    cases b with
    | nan => exact absurd rfl hb
    | inf nb => simpa [Format.convert] using hab
    | fin qb =>
      cases na
      · simp [Flt.lt] at hab
      · simp only [Format.convert]
        cases hr : fmt.round qb with
        | nan => exact absurd hr (round_ne_nan fmt qb)
        | inf n => simp [Flt.lt]
        | fin v => simp [Flt.lt]
  | fin qa =>
    cases b with
    | nan => exact absurd rfl hb
    | inf nb =>
      cases nb
      · simp only [Format.convert]
        cases hr : fmt.round qa with
        | nan => exact absurd hr (round_ne_nan fmt qa)
        | inf n => simp [Flt.lt]
        | fin v => simp [Flt.lt]
      · simp [Flt.lt] at hab
    | fin qb =>
      simp only [Flt.lt, decide_eq_false_iff_not, not_lt] at hab
      exact round_mono fmt hp qa qb hab

theorem Flt.lt_irrefl (a : Flt) : Flt.lt a a = false := by
  cases a with
  | nan => rfl
  | inf n => cases n <;> rfl
  | fin q => simp [Flt.lt]

/-- Two numbers neither of which is below the other are the same. -/
theorem Flt.eq_of_not_lt (a b : Flt) (ha : a ≠ Flt.nan) (hb : b ≠ Flt.nan)
    (h1 : Flt.lt a b = false) (h2 : Flt.lt b a = false) : a = b := by
  cases a with
  | nan => exact absurd rfl ha
  | inf na =>
    cases b with
    | nan => exact absurd rfl hb
    | inf nb => cases na <;> cases nb <;> simp_all [Flt.lt]
    | fin qb => cases na <;> simp_all [Flt.lt]
  | fin qa =>
    cases b with
    | nan => exact absurd rfl hb
    | inf nb => cases nb <;> simp_all [Flt.lt]
    | fin qb =>
      simp only [Flt.lt, decide_eq_false_iff_not, not_lt] at h1 h2
      rw [le_antisymm h2 h1]

/-- The comparison of two rounded numbers is strict exactly when the numbers
are in that order and their roundings differ. -/
theorem toFloat32_lt_iff (t c : ℚ) :
    Flt.lt (toFloat32 t) (toFloat32 c) = true ↔ t < c ∧ toFloat32 t ≠ toFloat32 c := by
  have h32 : 1 ≤ binary32.prec := by decide
  have h64 : 1 ≤ binary64.prec := by decide
  have nt : toFloat32 t ≠ Flt.nan := convert_ne_nan _ _ (round_ne_nan _ _)
  have nc : toFloat32 c ≠ Flt.nan := convert_ne_nan _ _ (round_ne_nan _ _)
  have mono : ∀ x y : ℚ, x ≤ y → Flt.lt (toFloat32 y) (toFloat32 x) = false := by
    intro x y hxy
    exact convert_mono binary32 h32 _ _ (round_ne_nan _ _) (round_ne_nan _ _)
      (round_mono binary64 h64 x y hxy)
  constructor
  · intro h
    constructor
    · by_contra hcon
      have := mono c t (not_lt.mp hcon)
      rw [this] at h
      exact Bool.false_ne_true h
    · intro heq
      rw [heq, Flt.lt_irrefl] at h
      exact Bool.false_ne_true h
  · rintro ⟨hlt, hne⟩
    by_contra hcon
    have h1 : Flt.lt (toFloat32 t) (toFloat32 c) = false := by simpa using hcon
    exact hne (Flt.eq_of_not_lt _ _ nt nc h1 (mono t c hlt.le))

/-! ## Text and number agree on decimal numerals -/

theorem isdigit_digitChar (d : Fin 10) : isdigit (digitChar d) = true := by
  fin_cases d <;> rfl

theorem digitVal_digitChar (d : Fin 10) : digitVal (digitChar d) = d.val := by
  fin_cases d <;> rfl

theorem isspace_digitChar (d : Fin 10) : isspace (digitChar d) = false := by
  fin_cases d <;> rfl

theorem digitChar_ne_minus (d : Fin 10) : digitChar d ≠ '-' := by
  fin_cases d <;> decide

theorem digitChar_ne_plus (d : Fin 10) : digitChar d ≠ '+' := by
  fin_cases d <;> decide

theorem digitChar_ne_point (d : Fin 10) : digitChar d ≠ '.' := by
  fin_cases d <;> decide

theorem digitChar_ne_x (d : Fin 10) : digitChar d ≠ 'x' ∧ digitChar d ≠ 'X' := by
  fin_cases d <;> decide

theorem tolower_digitChar (d : Fin 10) :
    tolower (digitChar d) ≠ 'i' ∧ tolower (digitChar d) ≠ 'n' := by
  fin_cases d <;> decide

theorem readDigits_digits (ds : List (Fin 10)) (rest : List Char) (h : stopsDigits rest)
    (acc n : Nat) :
    readDigits (ds.map digitChar ++ rest) acc n =
      (ds.foldl (fun a d => a * 10 + d.val) acc, n + ds.length, rest) := by
  induction ds generalizing acc n with
  | nil =>
    cases rest with
    | nil => simp [readDigits]
    | cons c cs =>
      have hc : isdigit c = false := h
      simp [readDigits, hc]
  | cons d ds ih =>
    simp only [List.map_cons, List.cons_append, readDigits, isdigit_digitChar, if_true,
      digitVal_digitChar, List.foldl_cons, List.length_cons]
    rw [List.append_eq, ih]
    simp [Nat.add_assoc, Nat.add_comm 1]

theorem readDigits_start (ds : List (Fin 10)) (rest : List Char) (h : stopsDigits rest) :
    readDigits (ds.map digitChar ++ rest) 0 0 = (digitsValue ds, ds.length, rest) := by
  rw [readDigits_digits ds rest h]
  simp [digitsValue]

theorem stopsDigits_of_stopsNumeral (tail : List Char) (h : stopsNumeral tail) :
    stopsDigits tail := by
  cases tail with
  | nil => trivial
  | cons c cs => exact h.1

theorem pow10_zero : pow10 0 = 1 := by
  simp [pow10]

theorem round_zero (fmt : Format) : fmt.round 0 = Flt.fin 0 := by
  have h : ¬ pow2 (fmt.emax + 1) ≤ 0 := not_le.mpr (pow2_pos _)
  simp [Format.round, roundMag, h]

/-- Magnitude read from the digits of a numeral: the digits count, and the
exponent is read from what follows them. -/
theorem decimalNumeral_mantissa (m : Mantissa) (more : List Char) (hm : followsDigits more) :
    decimalNumeral (m.chars ++ more) =
      ((digitsValue m.intDigits : ℚ) +
        (digitsValue m.fracDigits : ℚ) / ((10 ^ m.fracDigits.length : Nat) : ℚ)) *
        pow10 (readExponent 'e' 'E' more) := by
  obtain ⟨hstop, hhead⟩ := hm
  have hfr : readFraction more = (0, 0, more) := by
    cases more with
    | nil => rfl
    | cons c cs => simp [readFraction, (hhead c cs rfl).1]
  cases m with
  | whole lead rest point frac =>
    by_cases hp : point = true ∨ frac ≠ []
    · have h1 := readDigits_start (lead :: rest) ('.' :: frac.map digitChar ++ more)
        (by simp [stopsDigits]; rfl)
      have h2 := readDigits_start frac more hstop
      have hf : readFraction ('.' :: frac.map digitChar ++ more) =
          (digitsValue frac, frac.length, more) := by
        simp only [readFraction, List.cons_append, if_true]
        exact h2
      unfold decimalNumeral
      simp only [Mantissa.chars, hp, if_true, List.append_assoc, h1, hf, Mantissa.intDigits,
        Mantissa.fracDigits]
      simp
    · have hfrac : frac = [] := by
        by_contra hne
        exact hp (Or.inr hne)
      subst hfrac
      have h1 := readDigits_start (lead :: rest) more hstop
      unfold decimalNumeral
      simp only [Mantissa.chars, hp, if_false, List.append_nil, h1, hfr, Mantissa.intDigits,
        Mantissa.fracDigits]
      have h0 : digitsValue [] = 0 := rfl
      simp [h0]
  | fraction lead rest =>
    have h0 : readDigits ('.' :: (lead :: rest).map digitChar ++ more) 0 0 =
        (0, 0, '.' :: (lead :: rest).map digitChar ++ more) := by
      simp only [List.cons_append, readDigits]
      rw [if_neg (by decide)]
      rfl
    have h2 := readDigits_start (lead :: rest) more hstop
    have hf : readFraction ('.' :: (lead :: rest).map digitChar ++ more) =
        (digitsValue (lead :: rest), (lead :: rest).length, more) := by
      simp only [readFraction, List.cons_append, if_true]
      exact h2
    unfold decimalNumeral
    simp only [Mantissa.chars, h0, hf, Mantissa.intDigits, Mantissa.fracDigits]
    have hz : digitsValue [] = 0 := rfl
    simp [hz]

theorem readExponent_part (e : ExponentPart) (tail : List Char) (ht : stopsDigits tail) :
    readExponent 'e' 'E' (e.chars ++ tail) = e.value := by
  obtain ⟨upper, sign, lead, rest⟩ := e
  have hd := readDigits_start (lead :: rest) tail ht
  have hmark : ((if upper = true then 'E' else 'e') = 'e' ∨
      (if upper = true then 'E' else 'e') = 'E') := by
    cases upper <;> simp
  have hsign : readSign (sign.chars ++ ((lead :: rest).map digitChar ++ tail)) =
      (sign.negative, (lead :: rest).map digitChar ++ tail) := by
    cases sign <;>
      simp [Sign.chars, Sign.negative, readSign, digitChar_ne_minus, digitChar_ne_plus]
  simp only [ExponentPart.chars, List.cons_append, List.append_assoc, readExponent, hmark,
    if_true, hsign, hd, ExponentPart.value]
  simp

theorem readExponent_none (tail : List Char) (ht : stopsNumeral tail) :
    readExponent 'e' 'E' tail = 0 := by
  cases tail with
  | nil => rfl
  | cons c cs =>
    obtain ⟨_, _, h3, h4, _, _⟩ := ht
    simp [readExponent, h3, h4]

theorem followsDigits_tail (tail : List Char) (ht : stopsNumeral tail) : followsDigits tail := by
  refine ⟨stopsDigits_of_stopsNumeral tail ht, ?_⟩
  intro c cs hc
  subst hc
  exact ⟨ht.2.1, ht.2.2.2.2.1, ht.2.2.2.2.2⟩

theorem followsDigits_exponent (e : ExponentPart) (tail : List Char) :
    followsDigits (e.chars ++ tail) := by
  obtain ⟨upper, sign, lead, rest⟩ := e
  constructor
  · cases upper <;> simp [ExponentPart.chars, stopsDigits] <;> rfl
  · intro c cs hc
    cases upper <;> simp [ExponentPart.chars] at hc <;> rw [← hc.1] <;> decide

/-- The first character of the digits of a numeral is a digit or the point. -/
theorem mantissa_head (m : Mantissa) (more : List Char) :
    ∃ c cs, m.chars ++ more = c :: cs ∧ isspace c = false ∧ c ≠ '-' ∧ c ≠ '+' ∧
      tolower c ≠ 'i' ∧ tolower c ≠ 'n' := by
  cases m with
  | whole lead rest point frac =>
    refine ⟨digitChar lead, _, by simp [Mantissa.chars]; rfl, isspace_digitChar lead,
      digitChar_ne_minus lead, digitChar_ne_plus lead, (tolower_digitChar lead).1,
      (tolower_digitChar lead).2⟩
  | fraction lead rest =>
    exact ⟨'.', _, by simp [Mantissa.chars]; rfl, by decide, by decide, by decide, by decide,
      by decide⟩

theorem hexNumeral_mantissa (m : Mantissa) (more : List Char) (hm : followsDigits more) :
    hexNumeral (m.chars ++ more) = none := by
  obtain ⟨_, hhead⟩ := hm
  cases m with
  | fraction lead rest =>
    simp only [Mantissa.chars, List.cons_append]
    cases h : (lead :: rest).map digitChar ++ more with
    | nil => rfl
    | cons c cs => simp [hexNumeral]
  | whole lead rest point frac =>
    have key : ∀ after : List Char, (∀ c cs, after = c :: cs → c ≠ 'x' ∧ c ≠ 'X') →
        hexNumeral (digitChar lead :: after) = none := by
      intro after ha
      cases after with
      | nil => rfl
      | cons c cs =>
        obtain ⟨h1, h2⟩ := ha c cs rfl
        simp [hexNumeral, h1, h2]
    simp only [Mantissa.chars, List.map_cons, List.cons_append, List.append_assoc]
    apply key
    intro c cs hc
    cases rest with
    | cons r rs =>
      simp only [List.map_cons, List.cons_append, List.cons.injEq] at hc
      rw [← hc.1]
      exact digitChar_ne_x r
    | nil =>
      simp only [List.map_nil, List.nil_append] at hc
      by_cases hp : point = true ∨ frac ≠ []
      · simp only [hp, if_true, List.cons_append, List.cons.injEq] at hc
        rw [← hc.1]
        decide
      · simp only [hp, if_false, List.nil_append] at hc
        exact (hhead c cs hc).2

/-- The C library reads a decimal numeral, also when followed by text that
cannot continue it, as the `double` nearest to its value. -/
theorem atof_chars_tail (d : Decimal) (tail : List Char) (ht : stopsNumeral tail) :
    atof (d.chars ++ tail) = binary64.round d.value := by
  obtain ⟨sign, m, ex⟩ := d
  -- what follows the digits
  set more : List Char := (match ex with
    | none => []
    | some e => e.chars) ++ tail with hmore
  have hfollow : followsDigits more := by
    cases ex with
    | none => simpa [hmore] using followsDigits_tail tail ht
    | some e => exact followsDigits_exponent e tail
  have hexp : readExponent 'e' 'E' more = Decimal.scale ⟨sign, m, ex⟩ := by
    cases ex with
    | none => simpa [hmore, Decimal.scale] using readExponent_none tail ht
    | some e => exact readExponent_part e tail (stopsDigits_of_stopsNumeral tail ht)
  have hform : Decimal.chars ⟨sign, m, ex⟩ ++ tail = sign.chars ++ (m.chars ++ more) := by
    simp [Decimal.chars, hmore]
  obtain ⟨c, cs, hcs, hc1, hc2, hc3, hc4, hc5⟩ := mantissa_head m more
  have hdrop : List.dropWhile isspace (sign.chars ++ (m.chars ++ more)) =
      sign.chars ++ (m.chars ++ more) := by
    rw [hcs]
    cases sign
    · simp [Sign.chars, List.dropWhile, hc1]
    · simp [Sign.chars, List.dropWhile]; rfl
    · simp [Sign.chars, List.dropWhile]; rfl
  have hsign : readSign (sign.chars ++ (m.chars ++ more)) = (sign.negative, m.chars ++ more) := by
    rw [hcs]
    cases sign <;> simp [Sign.chars, Sign.negative, readSign, hc2, hc3]
  have hinf : matchWord ['i', 'n', 'f'] (m.chars ++ more) = false := by
    rw [hcs]; simp [matchWord, hc4]
  have hnan : matchWord ['n', 'a', 'n'] (m.chars ++ more) = false := by
    rw [hcs]; simp [matchWord, hc5]
  have hhex := hexNumeral_mantissa m more hfollow
  have hdec := decimalNumeral_mantissa m more hfollow
  rw [hform]
  unfold atof
  simp only [hdrop, hsign, hinf, hnan, hhex, hdec, hexp, Decimal.value]
  simp

theorem atof_chars (d : Decimal) : atof d.chars = binary64.round d.value := by
  have := atof_chars_tail d [] trivial
  simpa using this

theorem toFloat_render (d : Decimal) : toFloat d.render = toFloat32 d.value := by
  simp [toFloat, Decimal.render, atof_chars, toFloat32]

/-- Text that begins with no character of a number reads as zero. -/
theorem atof_no_number (text : List Char) (h : startsNoNumber text) :
    atof text = Flt.fin 0 := by
  cases text with
  | nil => simp [atof, readSign, matchWord, hexNumeral, decimalNumeral, readDigits,
      readFraction, round_zero]
  | cons c cs =>
    obtain ⟨h1, h2, h3, h4, h5, h6, h7⟩ := h
    have hc0 : c ≠ '0' := by
      intro h0; rw [h0] at h4; exact absurd h4 (by decide)
    have hhex : hexNumeral (c :: cs) = none := by
      cases cs with
      | nil => rfl
      | cons c1 cs1 => simp [hexNumeral, hc0]
    simp [atof, List.dropWhile, h1, readSign, h2, h3, matchWord, h6, h7, hhex, decimalNumeral,
      readDigits, h4, readFraction, h5, round_zero]

/-! ## The text `String(float)` writes -/

theorem tenpowLoop_stops (fuel : Nat) : ∀ (number tenpow : Flt) (digitcount k : Nat),
    k < fuel → Flt.ge number (Flt.mul 10 (tenpowAfter k tenpow)) = false →
    Flt.ge number (Flt.mul 10 (tenpowLoop fuel number tenpow digitcount).1) = false := by
  induction fuel with
  | zero => intro _ _ _ k hk; omega
  | succ fuel ih =>
    intro number tenpow digitcount k hk hstop
    simp only [tenpowLoop]
    split_ifs with hc
    · cases k with
      | zero =>
        simp only [tenpowAfter] at hstop
        rw [hstop] at hc
        exact absurd hc Bool.false_ne_true
      | succ k => exact ih number _ _ k (by omega) hstop
    · simpa using hc

/-- A `float` is below `2 ^ 128` in magnitude. -/
theorem float_bound (v : ℚ) (h : binary32.round v = Flt.fin v) :
    -pow2 128 ≤ v ∧ v ≤ pow2 128 := by
  unfold Format.round at h
  simp only [] at h
  have hnn := roundMag_nonneg binary32 (if v < 0 then -v else v)
  have he : binary32.emax + 1 = 128 := by decide
  rw [he] at h
  split_ifs at h with h1 h2
  · simp only [Flt.fin.injEq] at h
    constructor <;> linarith
  · simp only [Flt.fin.injEq] at h
    have := pow2_pos 128
    constructor <;> linarith

theorem round64_pow128 : binary64.round (pow2 128) = Flt.fin (pow2 128) := by
  with_unfolding_all decide

theorem round64_neg_pow128 : binary64.round (-pow2 128) = Flt.fin (-pow2 128) := by
  with_unfolding_all decide

theorem round64_pow128_succ : binary64.round (pow2 128 + 1) = Flt.fin (pow2 128) := by
  with_unfolding_all decide

theorem rounding_value : ∃ r : ℚ, 0 ≤ r ∧ r ≤ 1 ∧ Flt.div 1 (roundingLoop 2 2) = Flt.fin r := by
  refine ⟨mkRat 5764607523034235 1152921504606846976, ?_, ?_, ?_⟩ <;> with_unfolding_all decide

theorem tenpow_large : ∃ B : ℚ, pow2 128 < B ∧ Flt.mul 10 (tenpowAfter 39 1) = Flt.fin B := by
  refine ⟨mkRat 9999999999999997885934389197745317478400 1, ?_, ?_⟩ <;>
    with_unfolding_all decide

/-- A number rounded to `double` that lies between two bounds which are
themselves `double` values stays between them. -/
theorem round64_between (lo hi lo' hi' x : ℚ) (hlo : binary64.round lo = Flt.fin lo')
    (hhi : binary64.round hi = Flt.fin hi') (h1 : lo ≤ x) (h2 : x ≤ hi) :
    ∃ q : ℚ, binary64.round x = Flt.fin q ∧ lo' ≤ q ∧ q ≤ hi' := by
  have h64 : 1 ≤ binary64.prec := by decide
  have m1 := round_mono binary64 h64 lo x h1
  have m2 := round_mono binary64 h64 x hi h2
  rw [hlo] at m1
  rw [hhi] at m2
  cases hr : binary64.round x with
  | nan => exact absurd hr (round_ne_nan _ _)
  | inf b =>
    rw [hr] at m1 m2
    cases b <;> simp [Flt.lt] at m1 m2
  | fin q =>
    rw [hr] at m1 m2
    simp only [Flt.lt, decide_eq_false_iff_not, not_lt] at m1 m2
    exact ⟨q, rfl, m1, m2⟩

/-- For every finite `float` the loop of `dtostrf` that counts the integer
digits ends because its test fails, within the passes the model allows. -/
theorem dtostrf_loop_stops (v : ℚ) (hfloat : binary32.round v = Flt.fin v) :
    ∃ (q : ℚ) (number : Flt), binary64.convert (Flt.fin v) = Flt.fin q ∧
      number = Flt.add (if decide (q < 0) = true then Flt.neg (Flt.fin q) else Flt.fin q)
        (Flt.div 1 (roundingLoop 2 2)) ∧
      Flt.ge number (Flt.mul 10 (tenpowLoop 400 number 1 1).1) = false := by
  obtain ⟨b1, b2⟩ := float_bound v hfloat
  obtain ⟨q, hq, q1, q2⟩ := round64_between _ _ _ _ v round64_neg_pow128 round64_pow128 b1 b2
  obtain ⟨r, r0, r1, hr⟩ := rounding_value
  obtain ⟨B, hB, hten⟩ := tenpow_large
  have hmag : ∃ a : ℚ, 0 ≤ a ∧ a ≤ pow2 128 ∧
      (if decide (q < 0) = true then Flt.neg (Flt.fin q) else Flt.fin q) = Flt.fin a := by
    by_cases hneg : q < 0
    · exact ⟨-q, by linarith, by linarith, by simp [hneg, Flt.neg]⟩
    · exact ⟨q, not_lt.mp hneg, q2, by simp [hneg]⟩
  obtain ⟨a, a0, a1, ha⟩ := hmag
  obtain ⟨n, hn, _, n2⟩ := round64_between 0 (pow2 128 + 1) 0 (pow2 128) (a + r)
    (round_zero binary64) round64_pow128_succ (by linarith) (by linarith)
  refine ⟨q, _, hq, rfl, ?_⟩
  have hnum : Flt.add (if decide (q < 0) = true then Flt.neg (Flt.fin q) else Flt.fin q)
      (Flt.div 1 (roundingLoop 2 2)) = Flt.fin n := by
    rw [ha, hr]
    simpa [Flt.add] using hn
  rw [hnum]
  apply tenpowLoop_stops 400 _ _ _ 39 (by decide)
  rw [hten]
  simp only [Flt.ge, decide_eq_false_iff_not, not_le]
  linarith

/-! ## Facts about the request and the handler -/

theorem hasParam_eq_isSome (request : AsyncWebServerRequest) (name : String) :
    request.hasParam name = (request.getParam name).isSome := by
  obtain ⟨ps⟩ := request
  simp only [AsyncWebServerRequest.hasParam, AsyncWebServerRequest.getParam]
  induction ps with
  | nil => rfl
  | cons p ps ih =>
    by_cases hp : (p.name == name) = true
    · simp [List.find?, hp]
    · simp only [Bool.not_eq_true] at hp
      simp [List.find?, hp, ih]

theorem controlHeater_fields (s : State) :
    (controlHeater s).temperatureC = s.temperatureC ∧
    (controlHeater s).ComfortTemperatureC = s.ComfortTemperatureC ∧
    (controlHeater s).ConserveTemperatureC = s.ConserveTemperatureC ∧
    (controlHeater s).heaterState =
      Flt.lt (toFloat s.temperatureC) (toFloat s.ComfortTemperatureC) := by
  by_cases h : toFloat s.temperatureC < toFloat s.ComfortTemperatureC
  · have h' : Flt.lt (toFloat s.temperatureC) (toFloat s.ComfortTemperatureC) = true := h
    simp [controlHeater, h, h']
  · have h' : Flt.lt (toFloat s.temperatureC) (toFloat s.ComfortTemperatureC) = false :=
      Bool.eq_false_iff.mpr h
    simp [controlHeater, h, h']

theorem controlHeater_heating (s : State) :
    (controlHeater s).heaterState = true ↔
      toFloat s.temperatureC < toFloat s.ComfortTemperatureC := by
  rw [(controlHeater_fields s).2.2.2]
  exact Iff.rfl

theorem desiredcAssign_heaterState (s : State) (request : AsyncWebServerRequest) :
    (desiredcAssign s request).heaterState = s.heaterState ∧
    (desiredcAssign s request).temperatureC = s.temperatureC := by
  unfold desiredcAssign
  constructor <;> (split_ifs <;> (repeat' split) <;> rfl)

theorem desiredcAssign_comfort (s : State) (request : AsyncWebServerRequest) :
    (desiredcAssign s request).ComfortTemperatureC =
      match request.getParam ComfortParameter with
      | some p => p.value
      | none => s.ComfortTemperatureC := by
  unfold desiredcAssign
  simp only [hasParam_eq_isSome]
  cases request.getParam ComfortParameter <;> cases request.getParam ConserveParameter <;> rfl

theorem desiredcAssign_conserve (s : State) (request : AsyncWebServerRequest) :
    (desiredcAssign s request).ConserveTemperatureC =
      match request.getParam ConserveParameter with
      | some p => p.value
      | none => s.ConserveTemperatureC := by
  unfold desiredcAssign
  simp only [hasParam_eq_isSome]
  cases request.getParam ComfortParameter <;> cases request.getParam ConserveParameter <;> rfl

/-- On decimal numerals the comparison `controlHeater()` makes is strict
exactly when the values are in that order and their `float` readings differ. -/
theorem heating_numerals (s : State) (t c : Decimal) (ht : s.temperatureC = t.render)
    (hc : s.ComfortTemperatureC = c.render) :
    (controlHeater s).heaterState = true ↔
      t.value < c.value ∧ toFloat t.render ≠ toFloat c.render := by
  rw [(controlHeater_fields s).2.2.2, ht, hc, toFloat_render, toFloat_render]
  exact toFloat32_lt_iff t.value c.value

/-- Two `float` numbers between the values keep their roundings apart. -/
theorem toFloat32_separated (t c m1 m2 : ℚ) (h1 : t ≤ m1) (h12 : m1 < m2) (h2 : m2 ≤ c)
    (r1 : toFloat32 m1 = Flt.fin m1) (r2 : toFloat32 m2 = Flt.fin m2) :
    toFloat32 t ≠ toFloat32 c := by
  have h32 : 1 ≤ binary32.prec := by decide
  have h64 : 1 ≤ binary64.prec := by decide
  have mono : ∀ x y : ℚ, x ≤ y → Flt.lt (toFloat32 y) (toFloat32 x) = false := by
    intro x y hxy
    exact convert_mono binary32 h32 _ _ (round_ne_nan _ _) (round_ne_nan _ _)
      (round_mono binary64 h64 x y hxy)
  have a1 := mono t m1 h1
  have a2 := mono m2 c h2
  rw [r1] at a1
  rw [r2] at a2
  intro heq
  rw [← heq] at a2
  cases hX : toFloat32 t with
  | nan => exact absurd hX (convert_ne_nan _ _ (round_ne_nan _ _))
  | inf b =>
    rw [hX] at a1 a2
    cases b <;> simp [Flt.lt] at a1 a2
  | fin x =>
    rw [hX] at a1 a2
    simp only [Flt.lt, decide_eq_false_iff_not, not_lt] at a1 a2
    linarith

/-! ## Numbers that a format holds exactly -/

theorem roundMag_exact (fmt : Format) (a : ℚ) (n : Nat) (hn : a = n * ulp fmt a) :
    roundMag fmt a = a := by
  have hu := ulp_pos fmt a
  unfold roundMag
  split_ifs with h0
  · exact h0.symm
  · have hq : a / ulp fmt a = (n : ℚ) := by
      rw [div_eq_iff (ne_of_gt hu)]
      exact hn
    rw [hq, roundHalfEven_natCast]
    exact hn.symm

/-- A number whose magnitude is a whole multiple of its unit in the last place
and is within range is rounded to itself. -/
theorem round_exact (fmt : Format) (x : ℚ) (n : Nat)
    (hn : (if x < 0 then -x else x) = n * ulp fmt (if x < 0 then -x else x))
    (hrange : (if x < 0 then -x else x) < pow2 (fmt.emax + 1)) : fmt.round x = Flt.fin x := by
  have hm := roundMag_exact fmt _ n hn
  unfold Format.round
  simp only [hm, not_le.mpr hrange, if_false]
  split_ifs <;> simp

/-- Multiples of `1 / 1024` up to `1024` in magnitude are held exactly by a
format of at least 21 bits whose exponent range covers them. -/
theorem round_dyadic (fmt : Format) (hp : 21 ≤ fmt.prec) (hemin : fmt.emin ≤ -10)
    (hemax : 10 ≤ fmt.emax) (k : Int) (hk : k.natAbs ≤ 2 ^ 20) :
    fmt.round ((k : ℚ) / 1024) = Flt.fin ((k : ℚ) / 1024) := by
  by_cases hk0 : k = 0
  · subst hk0
    simpa using round_zero fmt
  set x : ℚ := (k : ℚ) / 1024 with hx
  set a : ℚ := (if x < 0 then -x else x) with ha
  have haabs : a = (k.natAbs : ℚ) / 1024 := by
    have h1 : ((k.natAbs : ℕ) : ℚ) = |(k : ℚ)| := by
      rw [Nat.cast_natAbs]; simp
    rw [ha, hx, h1]
    by_cases hneg : (k : ℚ) / 1024 < 0
    · have hkneg : (k : ℚ) < 0 := by
        by_contra hc
        have : (0 : ℚ) ≤ (k : ℚ) / 1024 := div_nonneg (not_lt.mp hc) (by norm_num)
        linarith
      rw [if_pos hneg, abs_of_neg hkneg]; ring
    · have hkpos : (0 : ℚ) ≤ (k : ℚ) := by
        by_contra hc
        have : (k : ℚ) / 1024 < 0 := div_neg_of_neg_of_pos (not_le.mp hc) (by norm_num)
        exact hneg this
      rw [if_neg hneg, abs_of_nonneg hkpos]
  have hnat1 : 1 ≤ k.natAbs := by omega
  have hapos : 0 < a := by
    rw [haabs]
    have : (0 : ℚ) < (k.natAbs : ℚ) := by exact_mod_cast hnat1
    positivity
  have halo : (2 : ℚ) ^ (-10 : Int) ≤ a := by
    rw [haabs]
    have : (1 : ℚ) ≤ (k.natAbs : ℚ) := by exact_mod_cast hnat1
    have e : (2 : ℚ) ^ (-10 : Int) = 1 / 1024 := by norm_num [zpow_neg]
    rw [e]
    exact div_le_div_of_nonneg_right this (by norm_num)
  have hahi : a ≤ (2 : ℚ) ^ (10 : Int) := by
    rw [haabs]
    have : (k.natAbs : ℚ) ≤ ((2 ^ 20 : ℕ) : ℚ) := by exact_mod_cast hk
    have e : (2 : ℚ) ^ (10 : Int) = ((2 ^ 20 : ℕ) : ℚ) / 1024 := by norm_num
    rw [e]
    exact div_le_div_of_nonneg_right this (by norm_num)
  obtain ⟨s1, s2⟩ := ilog2_spec a hapos
  have one2 : (1 : ℚ) < 2 := by norm_num
  have helo : -10 ≤ ilog2 a := by
    have := (zpow_lt_zpow_iff_right₀ one2).mp (lt_of_le_of_lt halo s2)
    omega
  have hehi : ilog2 a ≤ 10 := (zpow_le_zpow_iff_right₀ one2).mp (s1.trans hahi)
  have hmax : max (ilog2 a) fmt.emin = ilog2 a := max_eq_left (by omega)
  have two : (2 : ℚ) ≠ 0 := by norm_num
  have hulp : ulp fmt a = (2 : ℚ) ^ (ilog2 a - (fmt.prec - 1 : Int)) := by
    unfold ulp; rw [pow2_eq_zpow, hmax]
  obtain ⟨j, hj⟩ := Int.eq_ofNat_of_zero_le
    (show (0 : Int) ≤ (fmt.prec : Int) - 11 - ilog2 a by omega)
  apply round_exact fmt x (k.natAbs * 2 ^ j)
  · show a = ((k.natAbs * 2 ^ j : ℕ) : ℚ) * ulp fmt a
    have e1 : ((2 : ℚ) ^ j) = (2 : ℚ) ^ ((fmt.prec : Int) - 11 - ilog2 a) := by
      rw [hj, zpow_natCast]
    have e2 : (1 : ℚ) / 1024 = (2 : ℚ) ^ (-10 : Int) := by norm_num [zpow_neg]
    have e3 : (2 : ℚ) ^ ((fmt.prec : Int) - 11 - ilog2 a) *
        (2 : ℚ) ^ (ilog2 a - (fmt.prec - 1 : Int)) = (2 : ℚ) ^ (-10 : Int) := by
      rw [← zpow_add₀ two]
      congr 1
      ring
    calc a = (k.natAbs : ℚ) * (1 / 1024) := by rw [haabs]; ring
      _ = (k.natAbs : ℚ) * ((2 : ℚ) ^ ((fmt.prec : Int) - 11 - ilog2 a) *
            (2 : ℚ) ^ (ilog2 a - (fmt.prec - 1 : Int))) := by rw [e3, e2]
      _ = ((k.natAbs * 2 ^ j : ℕ) : ℚ) * ulp fmt a := by
          rw [hulp]; push_cast; rw [e1]; ring
  · show a < pow2 (fmt.emax + 1)
    rw [pow2_eq_zpow]
    calc a ≤ (2 : ℚ) ^ (10 : Int) := hahi
      _ < (2 : ℚ) ^ (fmt.emax + 1) := (zpow_lt_zpow_iff_right₀ one2).mpr (by omega)

theorem toFloat32_dyadic (k : Int) (hk : k.natAbs ≤ 2 ^ 20) :
    toFloat32 ((k : ℚ) / 1024) = Flt.fin ((k : ℚ) / 1024) := by
  unfold toFloat32
  rw [round_dyadic binary64 (by decide) (by decide) (by decide) k hk]
  exact round_dyadic binary32 (by decide) (by decide) (by decide) k hk

/-- Within `±1000`, numbers at least `0.002` apart are read as different
`float` values. -/
theorem toFloat32_apart (t c : ℚ) (ht : -1000 ≤ t) (hc : c ≤ 1000) (htc : t + 1 / 500 ≤ c) :
    toFloat32 t ≠ toFloat32 c := by
  have h1 : t * 1024 ≤ (⌈t * 1024⌉ : ℚ) := Int.le_ceil _
  have h2 : (⌈t * 1024⌉ : ℚ) < t * 1024 + 1 := Int.ceil_lt_add_one _
  have hlo : (-1024000 : Int) ≤ ⌈t * 1024⌉ := by
    have : ((-1024000 : Int) : ℚ) ≤ (⌈t * 1024⌉ : ℚ) := by push_cast; linarith
    exact_mod_cast this
  have hhi : ⌈t * 1024⌉ < (1024000 : Int) := by
    have : (⌈t * 1024⌉ : ℚ) < ((1024000 : Int) : ℚ) := by push_cast; linarith
    exact_mod_cast this
  have r1 := toFloat32_dyadic ⌈t * 1024⌉ (by omega)
  have r2 := toFloat32_dyadic (⌈t * 1024⌉ + 1) (by omega)
  refine toFloat32_separated t c _ _ ?_ ?_ ?_ r1 r2
  · rw [le_div_iff₀ (by norm_num)]; exact h1
  · apply div_lt_div_of_pos_right _ (by norm_num)
    push_cast; linarith
  · rw [div_le_iff₀ (by norm_num)]
    push_cast; linarith

/-! ## The claims -/

/-- C1, as stated, fails: `20.00` is below `20.0000001`, yet both texts read
as the `float` 20 and `controlHeater()` leaves the heater off, whatever the
previous `heaterState`. -/
theorem controlHeater_close_values_idle :
    (Decimal.plain false 2 [0] [0, 0]).render = "20.00" ∧
      (Decimal.plain false 2 [0] [0, 0, 0, 0, 0, 0, 1]).render = "20.0000001" ∧
      (Decimal.plain false 2 [0] [0, 0]).value < (Decimal.plain false 2 [0] [0, 0, 0, 0, 0, 0, 1]).value ∧
      decideHeaterState (Temperature.reading (Decimal.plain false 2 [0] [0, 0]).value)
        (Decimal.plain false 2 [0] [0, 0, 0, 0, 0, 0, 1]).value = true ∧
      toFloat "20.00" = 20 ∧ toFloat "20.0000001" = 20 ∧
      (controlHeater ⟨"20.00", "20.0000001", "16", false⟩).heaterState = false ∧
      (controlHeater ⟨"20.00", "20.0000001", "16", true⟩).heaterState = false := by
  refine ⟨?_, ?_, ?_, ?_, ?_, ?_, ?_, ?_⟩ <;> with_unfolding_all decide

/-- C1, amended: when the temperature text and the comfort text are decimal
numerals (optional sign, digits with an optional point, optional exponent
part) with values `t` and `c`, `controlHeater()` leaves `heaterState` true
exactly when `t < c` and the two texts read as different `float` values.  So
heating implies what the specification's law says, `c ≤ t` (equality included)
gives false, two `float` numbers between `t` and `c` are enough for heating,
as is a distance of `0.002` between values within `±1000`, and the outcome is
the same for either previous `heaterState`. -/
theorem controlHeater_heating_iff (t c : Decimal) (conserve : String) (prev : Bool) :
    ((controlHeater ⟨t.render, c.render, conserve, prev⟩).heaterState = true ↔
        t.value < c.value ∧ toFloat t.render ≠ toFloat c.render) ∧
      ((controlHeater ⟨t.render, c.render, conserve, prev⟩).heaterState = true →
        decideHeaterState (Temperature.reading t.value) c.value = true) ∧
      (t.value = c.value →
        (controlHeater ⟨t.render, c.render, conserve, prev⟩).heaterState = false) ∧
      (c.value ≤ t.value →
        (controlHeater ⟨t.render, c.render, conserve, prev⟩).heaterState = false) ∧
      (∀ m1 m2 : ℚ, t.value ≤ m1 → m1 < m2 → m2 ≤ c.value →
        toFloat32 m1 = Flt.fin m1 → toFloat32 m2 = Flt.fin m2 →
        (controlHeater ⟨t.render, c.render, conserve, prev⟩).heaterState = true) ∧
      (-1000 ≤ t.value → c.value ≤ 1000 → t.value + 1 / 500 ≤ c.value →
        (controlHeater ⟨t.render, c.render, conserve, prev⟩).heaterState = true) ∧
      (controlHeater ⟨t.render, c.render, conserve, prev⟩).heaterState =
        (controlHeater ⟨t.render, c.render, conserve, !prev⟩).heaterState := by
  have key := heating_numerals ⟨t.render, c.render, conserve, prev⟩ t c rfl rfl
  have key' := heating_numerals ⟨t.render, c.render, conserve, !prev⟩ t c rfl rfl
  have hoff : c.value ≤ t.value →
      (controlHeater ⟨t.render, c.render, conserve, prev⟩).heaterState = false := by
    intro hle
    cases hh : (controlHeater ⟨t.render, c.render, conserve, prev⟩).heaterState with
    | false => rfl
    | true => exact absurd (key.mp hh).1 (not_lt.mpr hle)
  refine ⟨key, ?_, ?_, hoff, ?_, ?_, ?_⟩
  · intro hh
    simpa [decideHeaterState] using (key.mp hh).1
  · intro heq
    exact hoff (le_of_eq heq.symm)
  · intro m1 m2 h1 h12 h2 r1 r2
    refine key.mpr ⟨by linarith, ?_⟩
    rw [toFloat_render, toFloat_render]
    exact toFloat32_separated _ _ m1 m2 h1 h12 h2 r1 r2
  · intro h1 h2 h3
    refine key.mpr ⟨by linarith, ?_⟩
    rw [toFloat_render, toFloat_render]
    exact toFloat32_apart _ _ h1 h2 h3
  · cases hh : (controlHeater ⟨t.render, c.render, conserve, prev⟩).heaterState with
    | true => exact (key'.mpr (key.mp hh)).symm
    | false =>
      cases hh' : (controlHeater ⟨t.render, c.render, conserve, !prev⟩).heaterState with
      | false => rfl
      | true => rw [key.mpr (key'.mp hh')] at hh; exact absurd hh (by decide)

/-- C1, amended, at instances: temperature `20.00` against comfort `22`, `20`
and `18`, against comfort `+2.2e1`, and temperature `.5` against comfort `5.`. -/
theorem controlHeater_heating_iff_witness :
    (controlHeater ⟨"20.00", "22", "16", false⟩).heaterState = true ∧
      (controlHeater ⟨"20.00", "20", "16", true⟩).heaterState = false ∧
      (controlHeater ⟨"20.00", "18", "16", true⟩).heaterState = false ∧
      (controlHeater ⟨"20.00", "+2.2e1", "16", false⟩).heaterState = true ∧
      (controlHeater ⟨".5", "5.", "16", false⟩).heaterState = true := by
  have h4 := controlHeater_heating_iff (Decimal.plain false 2 [0] [0, 0])
    ⟨Sign.plus, Mantissa.whole 2 [] false [2], some ⟨false, Sign.absent, 1, []⟩⟩ "16" false
  have h5 := controlHeater_heating_iff ⟨Sign.absent, Mantissa.fraction 5 [], none⟩
    ⟨Sign.absent, Mantissa.whole 5 [] true [], none⟩ "16" false
  have h1 := controlHeater_heating_iff (Decimal.plain false 2 [0] [0, 0]) (Decimal.plain false 2 [2] []) "16" false
  have h2 := controlHeater_heating_iff (Decimal.plain false 2 [0] [0, 0]) (Decimal.plain false 2 [0] []) "16" true
  have h3 := controlHeater_heating_iff (Decimal.plain false 2 [0] [0, 0]) (Decimal.plain false 1 [8] []) "16" true
  refine ⟨?_, ?_, ?_, ?_, ?_⟩
  · exact h1.2.2.2.2.2.1 (by with_unfolding_all decide) (by with_unfolding_all decide)
      (by with_unfolding_all decide)
  · exact h2.2.2.1 (by with_unfolding_all decide)
  · exact h3.2.2.2.1 (by with_unfolding_all decide)
  · exact h4.2.2.2.2.2.1 (by with_unfolding_all decide) (by with_unfolding_all decide)
      (by with_unfolding_all decide)
  · exact h5.2.2.2.2.2.1 (by with_unfolding_all decide) (by with_unfolding_all decide)
      (by with_unfolding_all decide)

/-- C2: a cycle of `loop()` whose sensor read returns the sentinel stores `--`
as the temperature and then reads it as `0`: the heater ends on exactly when
the comfort setpoint reads above `0`, and so it ends on from the start state
with its comfort setpoint `22`. -/
theorem loop_sentinel_heater (s : State) :
    (loop s (-127)).temperatureC = "--" ∧
      ((loop s (-127)).heaterState = true ↔ 0 < toFloat s.ComfortTemperatureC) ∧
      temperaturecHandler (loop initialState (-127)) = "--" ∧
      (loop initialState (-127)).heaterState = true := by
  have hr : readDSTemperatureC (-127) = "--" := by with_unfolding_all decide
  have h0 : toFloat "--" = 0 := by with_unfolding_all decide
  obtain ⟨h1, _, _, _⟩ := controlHeater_fields (loopAssign s (-127))
  have h4 := controlHeater_heating (loopAssign s (-127))
  refine ⟨?_, ?_, by with_unfolding_all decide, by with_unfolding_all decide⟩
  · simpa [loop, loopAssign, hr] using h1
  · simpa [loop, loopAssign, hr, h0] using h4

/-- C3, as stated, fails: after `comfort_input=20.0000001` and a pass of
`loop()` that reads `20.00` the state holds temperature `20.00` below comfort
`20.0000001` with the heater off, where the specification's law gives heating;
and after a pass of `loop()` that reads the sentinel the state holds the
unreadable temperature with the heater on, where the law gives idle. -/
theorem step_heater_against_law :
    loop (desiredcHandler (setup initialState 20) ⟨[⟨"comfort_input", "20.0000001"⟩]⟩) 20 =
        ⟨(Decimal.plain false 2 [0] [0, 0]).render,
          (Decimal.plain false 2 [0] [0, 0, 0, 0, 0, 0, 1]).render, "16", false⟩ ∧
      decideHeaterState (Temperature.reading (Decimal.plain false 2 [0] [0, 0]).value)
        (Decimal.plain false 2 [0] [0, 0, 0, 0, 0, 0, 1]).value = true ∧
      loop initialState (-127) = ⟨"--", (Decimal.plain false 2 [2] []).render, "16", true⟩ ∧
      decideHeaterState Temperature.unreadable (Decimal.plain false 2 [2] []).value = false := by
  refine ⟨?_, ?_, ?_, ?_⟩ <;> with_unfolding_all decide

/-- C3, amended: after a pass of `loop()` with any reading, and after a
`/desiredc` request with any parameters, from any state: whenever the
temperature and comfort texts of the final state are decimal numerals with
values `t` and `c`, `heaterState` is true exactly when `t < c` and the two
texts read as different `float` values, so heating implies the specification's
law, `c ≤ t` gives false, and values within `±1000` that are `0.002` apart
give heating.  The handler reaches `heaterState` only through
`controlHeater()`: its own assignments leave it as it was. -/
theorem heater_after_step (s : State) (tempC : Flt) (request : AsyncWebServerRequest)
    (t c : Decimal) :
    ((loop s tempC).temperatureC = t.render → (loop s tempC).ComfortTemperatureC = c.render →
        ((loop s tempC).heaterState = true ↔
          t.value < c.value ∧ toFloat t.render ≠ toFloat c.render) ∧
        ((loop s tempC).heaterState = true →
          decideHeaterState (Temperature.reading t.value) c.value = true) ∧
        (c.value ≤ t.value → (loop s tempC).heaterState = false) ∧
        (-1000 ≤ t.value → c.value ≤ 1000 → t.value + 1 / 500 ≤ c.value →
          (loop s tempC).heaterState = true)) ∧
      ((desiredcHandler s request).temperatureC = t.render →
        (desiredcHandler s request).ComfortTemperatureC = c.render →
        ((desiredcHandler s request).heaterState = true ↔
          t.value < c.value ∧ toFloat t.render ≠ toFloat c.render) ∧
        ((desiredcHandler s request).heaterState = true →
          decideHeaterState (Temperature.reading t.value) c.value = true) ∧
        (c.value ≤ t.value → (desiredcHandler s request).heaterState = false) ∧
        (-1000 ≤ t.value → c.value ≤ 1000 → t.value + 1 / 500 ≤ c.value →
          (desiredcHandler s request).heaterState = true)) ∧
      desiredcHandler s request = controlHeater (desiredcAssign s request) ∧
      (desiredcAssign s request).heaterState = s.heaterState := by
  have key : ∀ u : State, (controlHeater u).temperatureC = t.render →
      (controlHeater u).ComfortTemperatureC = c.render →
      ((controlHeater u).heaterState = true ↔
          t.value < c.value ∧ toFloat t.render ≠ toFloat c.render) ∧
        ((controlHeater u).heaterState = true →
          decideHeaterState (Temperature.reading t.value) c.value = true) ∧
        (c.value ≤ t.value → (controlHeater u).heaterState = false) ∧
        (-1000 ≤ t.value → c.value ≤ 1000 → t.value + 1 / 500 ≤ c.value →
          (controlHeater u).heaterState = true) := by
    intro u h1 h2
    obtain ⟨f1, f2, _, _⟩ := controlHeater_fields u
    have k := heating_numerals u t c (f1.symm.trans h1) (f2.symm.trans h2)
    refine ⟨k, ?_, ?_, ?_⟩
    · intro hh
      simpa [decideHeaterState] using (k.mp hh).1
    · intro hle
      cases hh : (controlHeater u).heaterState with
      | false => rfl
      | true => exact absurd (k.mp hh).1 (not_lt.mpr hle)
    · intro b1 b2 b3
      refine k.mpr ⟨by linarith, ?_⟩
      rw [toFloat_render, toFloat_render]
      exact toFloat32_apart _ _ b1 b2 b3
  exact ⟨key _, key _, rfl, (desiredcAssign_heaterState s request).1⟩

/-- C3, amended, at instances: a pass of `loop()` reading `20.00` under comfort
`22` ends heating, and the request `comfort_input=18` after it ends idle. -/
theorem heater_after_step_witness :
    (loop initialState 20).heaterState = true ∧
      (desiredcHandler (loop initialState 20) ⟨[⟨"comfort_input", "18"⟩]⟩).heaterState = false := by
  have h1 := (heater_after_step initialState 20 ⟨[]⟩ (Decimal.plain false 2 [0] [0, 0])
    (Decimal.plain false 2 [2] [])).1 (by with_unfolding_all decide) (by with_unfolding_all decide)
  have h2 := (heater_after_step (loop initialState 20) 20 ⟨[⟨"comfort_input", "18"⟩]⟩
    (Decimal.plain false 2 [0] [0, 0]) (Decimal.plain false 1 [8] [])).2.1
    (by with_unfolding_all decide) (by with_unfolding_all decide)
  exact ⟨h1.2.2.2 (by with_unfolding_all decide) (by with_unfolding_all decide)
    (by with_unfolding_all decide), h2.2.2.1 (by with_unfolding_all decide)⟩

/-- C4, as stated, fails: with temperature `20.00` and the heater on under
comfort `22`, the request `comfort_input=20.0000001` turns the heater off
although `20.00` is below the new setpoint; and with the unreadable temperature
the request `comfort_input=18` leaves the heater on, where the specification's
law gives idle. -/
theorem desiredc_comfort_against_law :
    desiredcHandler (loop initialState 20) ⟨[⟨"comfort_input", "20.0000001"⟩]⟩ =
        ⟨(Decimal.plain false 2 [0] [0, 0]).render,
          (Decimal.plain false 2 [0] [0, 0, 0, 0, 0, 0, 1]).render, "16", false⟩ ∧
      decideHeaterState (Temperature.reading (Decimal.plain false 2 [0] [0, 0]).value)
        (Decimal.plain false 2 [0] [0, 0, 0, 0, 0, 0, 1]).value = true ∧
      desiredcHandler (loop initialState (-127)) ⟨[⟨"comfort_input", "18"⟩]⟩ =
        ⟨"--", (Decimal.plain false 1 [8] []).render, "16", true⟩ ∧
      decideHeaterState Temperature.unreadable (Decimal.plain false 1 [8] []).value = false := by
  refine ⟨?_, ?_, ?_, ?_⟩ <;> with_unfolding_all decide

/-- C4, amended: a `/desiredc` request with a `comfort_input` parameter and no
`conserve_input` stores the parameter's value as the comfort setpoint, leaves
the conserve setpoint and the temperature as they were, and sets `heaterState`
from the unchanged temperature and the new value: when these are decimal
numerals with values `t` and `v`, true exactly when `t < v` and the two texts
read as different `float` values, as values within `±1000` that are `0.002`
apart do. -/
theorem desiredc_comfort_only (s : State) (request : AsyncWebServerRequest)
    (p : AsyncWebParameter) (hcomfort : request.getParam ComfortParameter = some p)
    (hconserve : request.hasParam ConserveParameter = false) :
    (desiredcHandler s request).ComfortTemperatureC = p.value ∧
      (desiredcHandler s request).ConserveTemperatureC = s.ConserveTemperatureC ∧
      (desiredcHandler s request).temperatureC = s.temperatureC ∧
      (∀ t v : Decimal, s.temperatureC = t.render → p.value = v.render →
        ((desiredcHandler s request).heaterState = true ↔
          t.value < v.value ∧ toFloat t.render ≠ toFloat v.render) ∧
        ((desiredcHandler s request).heaterState = true →
          decideHeaterState (Temperature.reading t.value) v.value = true) ∧
        (v.value ≤ t.value → (desiredcHandler s request).heaterState = false) ∧
        (-1000 ≤ t.value → v.value ≤ 1000 → t.value + 1 / 500 ≤ v.value →
          (desiredcHandler s request).heaterState = true)) := by
  have hnone : request.getParam ConserveParameter = none := by
    have := hasParam_eq_isSome request ConserveParameter
    rw [hconserve] at this
    simpa using this.symm
  obtain ⟨h1, h2, h3, _⟩ := controlHeater_fields (desiredcAssign s request)
  have hc := desiredcAssign_comfort s request
  have hv := desiredcAssign_conserve s request
  have ht := (desiredcAssign_heaterState s request).2
  simp only [hcomfort] at hc
  simp only [hnone] at hv
  refine ⟨h2.trans hc, h3.trans hv, h1.trans ht, ?_⟩
  intro t v e1 e2
  have k := heating_numerals (desiredcAssign s request) t v (ht.trans e1) (hc.trans e2)
  refine ⟨k, ?_, ?_, ?_⟩
  · intro hh
    simpa [decideHeaterState] using (k.mp hh).1
  · intro hle
    cases hh : (desiredcHandler s request).heaterState with
    | false => rfl
    | true => exact absurd (k.mp hh).1 (not_lt.mpr hle)
  · intro b1 b2 b3
    refine k.mpr ⟨by linarith, ?_⟩
    rw [toFloat_render, toFloat_render]
    exact toFloat32_apart _ _ b1 b2 b3

/-- C4, scenario B: temperature `20.00`, heater on under comfort `22`; the
request `comfort_input=18` turns the heater off. -/
theorem desiredc_comfort_only_witness :
    loop initialState 20 = ⟨"20.00", "22", "16", true⟩ ∧
      desiredcHandler (loop initialState 20) ⟨[⟨"comfort_input", "18"⟩]⟩ =
        ⟨"20.00", "18", "16", false⟩ := by
  have h := desiredc_comfort_only (loop initialState 20) ⟨[⟨"comfort_input", "18"⟩]⟩
    ⟨"comfort_input", "18"⟩ (by decide) (by decide)
  have h20 : loop initialState 20 = ⟨"20.00", "22", "16", true⟩ := by with_unfolding_all decide
  refine ⟨h20, ?_⟩
  rw [h20] at h
  obtain ⟨h1, h2, h3, h4⟩ := h
  have h5 : (desiredcHandler ⟨"20.00", "22", "16", true⟩ ⟨[⟨"comfort_input", "18"⟩]⟩).heaterState
      = false :=
    (h4 (Decimal.plain false 2 [0] [0, 0]) (Decimal.plain false 1 [8] []) (by decide) (by decide)).2.2.1
      (by with_unfolding_all decide)
  cases hres : desiredcHandler ⟨"20.00", "22", "16", true⟩ ⟨[⟨"comfort_input", "18"⟩]⟩
  rw [hres] at h1 h2 h3 h5
  simp_all

/-- C6, as stated, fails: with temperature `20.00`, comfort `22` and the heater
on, `comfort_input=abc` replaces the comfort setpoint by `abc` and turns the
heater off; `comfort_input=12abc` is stored and read as `12`; and
`conserve_input=abc` replaces the conserve setpoint. -/
theorem desiredc_malformed_field_applied :
    loop initialState 20 = ⟨"20.00", "22", "16", true⟩ ∧
      desiredcHandler ⟨"20.00", "22", "16", true⟩ ⟨[⟨"comfort_input", "abc"⟩]⟩ =
        ⟨"20.00", "abc", "16", false⟩ ∧
      desiredcHandler ⟨"20.00", "22", "16", true⟩ ⟨[⟨"comfort_input", "12abc"⟩]⟩ =
        ⟨"20.00", "12abc", "16", false⟩ ∧
      desiredcHandler ⟨"20.00", "22", "16", true⟩ ⟨[⟨"comfort_input", ""⟩]⟩ =
        ⟨"20.00", "", "16", false⟩ ∧
      desiredcHandler ⟨"20.00", "22", "16", true⟩ ⟨[⟨"conserve_input", "abc"⟩]⟩ =
        ⟨"20.00", "22", "abc", true⟩ ∧
      desiredcHandler ⟨"9.50", "8", "16", false⟩ ⟨[⟨"comfort_input", "12abc"⟩]⟩ =
        ⟨"9.50", "12abc", "16", true⟩ := by
  refine ⟨?_, ?_, ?_, ?_, ?_, ?_⟩ <;> with_unfolding_all decide

/-- C6, amended: the `/desiredc` handler stores the text of a present field as
it arrived, whatever it is, and `controlHeater()` then compares the temperature
with what `toFloat` reads from the stored comfort text.  A text that begins
with no character of a number reads as `0`; a decimal numeral followed by a
character that cannot continue it reads as the numeral alone. -/
theorem desiredc_stores_field_text (s : State) (request : AsyncWebServerRequest) :
    (∀ p, request.getParam ComfortParameter = some p →
        (desiredcHandler s request).ComfortTemperatureC = p.value) ∧
      (∀ p, request.getParam ConserveParameter = some p →
        (desiredcHandler s request).ConserveTemperatureC = p.value) ∧
      ((desiredcHandler s request).heaterState = true ↔
        toFloat s.temperatureC < toFloat (desiredcHandler s request).ComfortTemperatureC) ∧
      (∀ text : List Char, startsNoNumber text → toFloat (String.mk text) = 0) ∧
      (∀ (d : Decimal) (tail : List Char), stopsNumeral tail →
        toFloat (String.mk (d.chars ++ tail)) = toFloat d.render) ∧
      toFloat "abc" = 0 ∧ toFloat "" = 0 ∧ toFloat "12abc" = 12 := by
  obtain ⟨h1, h2, h3, _⟩ := controlHeater_fields (desiredcAssign s request)
  have h4 := controlHeater_heating (desiredcAssign s request)
  have hc := desiredcAssign_comfort s request
  have hv := desiredcAssign_conserve s request
  have ht := (desiredcAssign_heaterState s request).2
  refine ⟨?_, ?_, ?_, ?_, ?_, by with_unfolding_all decide, by with_unfolding_all decide,
    by with_unfolding_all decide⟩
  · intro p hp
    simp only [hp] at hc
    exact h2.trans hc
  · intro p hp
    simp only [hp] at hv
    exact h3.trans hv
  · show (controlHeater (desiredcAssign s request)).heaterState = true ↔
      _ < toFloat (controlHeater (desiredcAssign s request)).ComfortTemperatureC
    rw [h4, h2, ht]
  · intro text h
    show binary32.convert (atof text) = 0
    rw [atof_no_number text h]
    exact round_zero binary32
  · intro d tail h
    show binary32.convert (atof (d.chars ++ tail)) = binary32.convert (atof d.chars)
    rw [atof_chars_tail d tail h, atof_chars]

/-- C6, amended, at instances: the texts `abc` and `12abc`. -/
theorem desiredc_stores_field_text_witness :
    toFloat (String.mk ['a', 'b', 'c']) = 0 ∧
      toFloat (String.mk ((Decimal.plain false 1 [2] []).chars ++ ['a', 'b', 'c'])) =
        toFloat "12" := by
  have h := desiredc_stores_field_text initialState ⟨[]⟩
  exact ⟨h.2.2.2.1 ['a', 'b', 'c'] (by simp only [startsNoNumber]; decide),
    h.2.2.2.2.1 (Decimal.plain false 1 [2] []) ['a', 'b', 'c'] (by simp only [stopsNumeral]; decide)⟩

/-- C8: `setup()` stores the first reading and leaves `heaterState` at its
initialiser `false`, for every reading; for the reading `20.00` under the
default comfort setpoint `22` the page shows `OFF`, where `controlHeater()`
on that same state gives `true`. -/
theorem setup_leaves_heater_off (tempC : Flt) :
    (setup initialState tempC).heaterState = false ∧
      setup initialState 20 = ⟨"20.00", "22", "16", false⟩ ∧
      processor (setup initialState 20) "HEATER_STATE" = "OFF" ∧
      (controlHeater (setup initialState 20)).heaterState = true ∧
      ¬ heaterCurrent (setup initialState 20) := by
  refine ⟨rfl, ?_, ?_, ?_, ?_⟩ <;> with_unfolding_all decide

end EmbeddedController
